import Mathlib

/-!
Verification of the dunnart polling-and-publish core against its
natural-language specification.

The Go sources are shallowly embedded:

* pure helpers (cpu.go delta, net.go gauge arithmetic, dunnart.go
  normaliseConfig and the discovery builder) become Lean functions over
  Nat/Int/Rat and association lists;
* the Poller of poller.go (two goroutines coordinating over an unbuffered
  channel and a closable done channel) becomes a small-step transition
  system over an explicit state, with Go select modelled as a
  nondeterministic choice among the enabled branches and an unbuffered
  channel send/receive pair modelled as one atomic rendezvous step;
* nil pointers / nil interfaces become Option, with method dispatch on a
  nil value returning an error value of type RuntimeFault;
* time.ParseDuration of the Go standard library (an external dependency of
  poller.go) is embedded following its documented algorithm, with the
  float64 fraction scaling idealised to exact integer arithmetic.
-/

namespace Dunnart

/-! ## cpu.go: delta (lines 227-232) -/

/-- Embedding of cpu.go delta: the guarded uint64 difference used for
/proc/stat counters.  Counters are modelled as Nat; the guard makes the
uint64 subtraction exact, so no modular wrap can occur. -/
def delta (old new : Nat) : Nat :=
  if new ≤ old then 0 else new - old

/-! ## net.go: gauge (lines 99-117) -/

/-- Embedding of the net.go gauge: a counter sample that may be invalid
when the sysfs read or parse failed. -/
structure gauge where
  valid : Bool
  value : Nat
  deriving DecidableEq, Repr

/-- Embedding of net.go gauge.delta: the increase between two samples,
counted only when both samples are valid and the counter strictly
increased. -/
def gauge.delta (g new : gauge) : Nat :=
  if g.valid ∧ new.valid ∧ g.value < new.value then new.value - g.value else 0

/-- Embedding of net.go gauge.rate: the per-second rate derived from the
delta.  The Go float64 arithmetic is idealised as exact rationals; the
elapsed time is given in seconds. -/
def gauge.rate (g new : gauge) (tdSeconds : ℚ) : ℚ :=
  (g.delta new : ℚ) / tdSeconds

/-! ## time.ParseDuration

Embedding of Go time.ParseDuration, the external standard-library
dependency used by poller.go (NewPoller) and PolledSensor.SetPollPeriod.
It follows the Go implementation step by step over the character list:
optional sign, repeated number-unit terms, uint64 accumulation with the
same overflow guards.  The only idealisation: Go computes the fractional
part with float64 as f * (unit / scale); here it is the exact integer
f * unit / scale. -/

/-- Unit table of time.ParseDuration, in nanoseconds. -/
def durUnitNs (u : String) : Option Nat :=
  if u = "ns" then some 1
  else if u = "us" then some 1000
  else if u = "µs" then some 1000
  else if u = "μs" then some 1000
  else if u = "ms" then some 1000000
  else if u = "s" then some 1000000000
  else if u = "m" then some 60000000000
  else if u = "h" then some 3600000000000
  else none

/-- Go leadingInt: consume leading decimal digits into x, erroring out on
uint64 overflow exactly as Go does. -/
def leadingInt : Nat → List Char → Option (Nat × List Char)
  | x, [] => some (x, [])
  | x, c :: cs =>
    if c.isDigit then
      if x > 2 ^ 63 / 10 then none
      else
        let y := x * 10 + (c.toNat - 48)
        if y > 2 ^ 63 then none
        else leadingInt y cs
    else some (x, c :: cs)

/-- Go leadingFraction: consume fractional digits into x with a power-of-
ten scale, silently saturating (consuming the rest) on overflow. -/
def leadingFraction : Nat → Nat → Bool → List Char → Nat × Nat × List Char
  | x, scale, _, [] => (x, scale, [])
  | x, scale, ovf, c :: cs =>
    if c.isDigit then
      if ovf then leadingFraction x scale ovf cs
      else if x > (2 ^ 63 - 1) / 10 then leadingFraction x scale true cs
      else
        let y := x * 10 + (c.toNat - 48)
        if y > 2 ^ 63 then leadingFraction x scale true cs
        else leadingFraction y (scale * 10) false cs
    else (x, scale, c :: cs)

/-- Split off the unit: the longest leading run of characters that are
neither a digit nor a dot, exactly as the scan loop in ParseDuration. -/
def unitSpan (cs : List Char) : List Char × List Char :=
  (cs.takeWhile (fun c => ¬(c = '.' ∨ c.isDigit)),
   cs.dropWhile (fun c => ¬(c = '.' ∨ c.isDigit)))

/-- The main term loop of ParseDuration.  Each iteration consumes one
number-unit term; the fuel argument (at least the list length at entry)
only discharges termination and is never exhausted on reachable inputs,
since every term consumes at least one character. -/
def durTerms : Nat → List Char → Nat → Option Nat
  | 0, cs, d => if cs = [] then some d else none
  | _ + 1, [], d => some d
  | fuel + 1, c :: cs, d =>
    if ¬(c = '.' ∨ c.isDigit) then none
    else
      match leadingInt 0 (c :: cs) with
      | none => none
      | some (v, s1) =>
        let pre : Bool := s1.length ≠ (c :: cs).length
        let fr :=
          match s1 with
          | '.' :: rest =>
            let fsr := leadingFraction 0 1 false rest
            (fsr.1, fsr.2.1, fsr.2.2, (decide (fsr.2.2.length ≠ rest.length) : Bool))
          | _ => (0, 1, s1, false)
        if ¬pre ∧ ¬fr.2.2.2 then none
        else
          let us := unitSpan fr.2.2.1
          if us.1 = [] then none
          else
            match durUnitNs (String.mk us.1) with
            | none => none
            | some unit =>
              if v > 2 ^ 63 / unit then none
              else
                let v1 := v * unit
                let v2 := if fr.1 > 0 then v1 + fr.1 * unit / fr.2.1 else v1
                if fr.1 > 0 ∧ v2 > 2 ^ 63 then none
                else
                  if d + v2 > 2 ^ 63 then none
                  else durTerms fuel us.2 (d + v2)

/-- Embedding of Go time.ParseDuration: some d (in nanoseconds, possibly
negative) on success, none where Go returns an error. -/
def parseDuration (s : String) : Option Int :=
  let cs0 := s.toList
  let sc :=
    match cs0 with
    | '-' :: rest => (true, rest)
    | '+' :: rest => (false, rest)
    | _ => (false, cs0)
  if sc.2 = ['0'] then some 0
  else if sc.2 = [] then none
  else
    match durTerms (sc.2.length + 1) sc.2 0 with
    | none => none
    | some d =>
      if sc.1 then some (-(d : Int))
      else if d > 2 ^ 63 - 1 then none
      else some (d : Int)

/-! ## PolledSensor (poller.go lines 93-133), at the method level

The Poller goroutine machinery is modelled separately as a transition
system below; here the Poller is seen through its handle: a current
period and a closed flag.  Method calls return the sequence of requests
and transport actions they issue.  A nil *PolledSensor receiver is
Option.none; a Go runtime fault (nil dereference) is an Except error. -/

/-- A bound publish/subscribe handle value: the StubPubSub of dunnart.go
or an mqttPubSub with its base topic.  A Go nil interface is Option.none
around this type. -/
inductive PubSubRef
  | stub
  | mqtt (baseTopic : String)
  deriving DecidableEq, Repr

/-- The two subscription callbacks installed by PolledSensor.Sync. -/
inductive HandlerTag
  | forceRefresh
  | setPollPeriod
  deriving DecidableEq, Repr

/-- A published payload: a time.Duration value or a raw string. -/
inductive Payload
  | dur (ns : Int)
  | raw (s : String)
  deriving DecidableEq, Repr

/-- An effect issued by a PolledSensor method: a refresh request to the
owned Poller, a Subscribe, or a Publish on the bound handle. -/
inductive PSAction
  | refresh (forced : Bool)
  | subscribe (topic : String) (h : HandlerTag)
  | publish (topic : String) (payload : Payload)
  deriving DecidableEq, Repr

/-- True exactly on publish actions. -/
def PSAction.isPublish : PSAction → Bool
  | .publish _ _ => true
  | _ => false

/-- A Go runtime fault observable in this model: dereference of a nil
pointer or nil interface, or the panic time.Ticker.Reset raises on a
non-positive interval. -/
inductive RuntimeFault
  | nilDeref
  | resetNonPositive
  deriving DecidableEq, Repr

/-- Handle view of a Poller: its mutable period (ns) and whether its done
channel has been closed. -/
structure PollerH where
  period : Int
  closed : Bool
  deriving DecidableEq, Repr

/-- Embedding of poller.go Poller.UpdatePeriod at the handle level: store
the new period, then request one unforced refresh, then reset the ticker
with p.t.Reset(p.period).  On a closed Poller the select takes the done
branch and returns before the reset; otherwise time.Ticker.Reset panics
when the stored period is not positive, which aborts the call (and with it
the process) after the refresh request but before the caller can do
anything further. -/
def PollerH.UpdatePeriod (p : PollerH) (d : Int) :
    Except RuntimeFault (PollerH × List PSAction) :=
  let pw := { p with period := d }
  if p.closed then .ok (pw, [])
  else if 0 < d then .ok (pw, [.refresh false])
  else .error .resetNonPositive

/-- Embedding of poller.go PolledSensor: topic, owned Poller handle, and
the bound PubSub (none = the nil interface a zero-valued field holds). -/
structure PolledSensor where
  topic : String
  poller : PollerH
  ps : Option PubSubRef
  deriving DecidableEq, Repr

/-- Embedding of PolledSensor.Close (nil-guarded in the source). -/
def PolledSensor.Close : Option PolledSensor → Except RuntimeFault (Option PolledSensor)
  | none => .ok none
  | some s => .ok (some { s with poller := { s.poller with closed := true } })

/-- Embedding of PolledSensor.Done: return s.poller.done.  The source has
no nil guard, so a nil receiver dereferences a nil pointer. -/
def PolledSensor.Done : Option PolledSensor → Except RuntimeFault PollerH
  | none => .error .nilDeref
  | some s => .ok s.poller

/-- Embedding of PolledSensor.SetPollPeriod: parse the payload as a
duration; on failure return silently; on success update the Poller period
through UpdatePeriod and then publish the new period.  The source has no
nil guard, so a nil receiver faults once the parse succeeds; and when
UpdatePeriod panics at its ticker reset (non-positive parsed duration on a
running Poller) the publish after it never runs. -/
def PolledSensor.SetPollPeriod :
    Option PolledSensor → String → Except RuntimeFault (Option PolledSensor × List PSAction)
  | r, b =>
    match parseDuration b with
    | none => .ok (r, [])
    | some d =>
      match r with
      | none => .error .nilDeref
      | some s =>
        match s.poller.UpdatePeriod d with
        | .error e => .error e
        | .ok pa =>
          .ok (some { s with poller := pa.1 },
               pa.2 ++ [.publish (s.topic ++ "/poll_period") (.dur d)])

/-- Embedding of PolledSensor.Sync (nil-guarded in the source): rebind the
handle, force one refresh, subscribe the rqd topic, publish the current
period, subscribe the rqd/poll_period topic — in source order. -/
def PolledSensor.Sync :
    Option PolledSensor → PubSubRef → Except RuntimeFault (Option PolledSensor × List PSAction)
  | none, _ => .ok (none, [])
  | some s, ps =>
    .ok (some { s with ps := some ps },
         [.refresh true,
          .subscribe (s.topic ++ "/rqd") .forceRefresh,
          .publish (s.topic ++ "/poll_period") (.dur s.poller.period),
          .subscribe (s.topic ++ "/rqd/poll_period") .setPollPeriod])

/-! ## fs.go: mount construction and pre-Sync publishing (lines 85-193) -/

/-- Configuration of one fs mountpoint (fs.go fsMountPointConfig): the
inherited poller period string and the filesystem path. -/
structure fsMountPointConfig where
  Period : String
  Path : String
  deriving Repr

/-- Embedding of the fs.go mount struct.  The embedded PolledSensor is the
sensor field; Go zero values give mounted = false, used = 0, msg = "" and,
crucially, ps = none (a nil interface). -/
structure mount where
  sensor : PolledSensor
  name : String
  path : String
  mounted : Bool
  used : Nat
  msg : String
  deriving DecidableEq, Repr

/-- Embedding of NewPoller at the handle level: parse the configured
period (fatal on error, modelled as Except.error) and start with the
done channel open. -/
def NewPollerHandle (periodStr : String) : Except String PollerH :=
  match parseDuration periodStr with
  | none => .error ("error parsing period " ++ periodStr)
  | some d => .ok { period := d, closed := false }

/-- Embedding of fs.go newMount: note that the embedded PolledSensor's ps
field is left at its zero value, the nil interface (none) — newMount never
installs StubPubSub. -/
def newMount (name : String) (cfg : fsMountPointConfig) : Except String mount :=
  match NewPollerHandle cfg.Period with
  | .error e => .error e
  | .ok p =>
    .ok { sensor := { topic := "/" ++ name, poller := p, ps := none },
          name := name, path := cfg.Path, mounted := false, used := 0, msg := "" }

/-- Method dispatch of Publish on a possibly-nil PubSub interface value:
nil faults, StubPubSub discards, mqttPubSub delivers under its base
topic. -/
def PubSubPublish :
    Option PubSubRef → String → Payload → Except RuntimeFault (List (String × Payload))
  | none, _, _ => .error .nilDeref
  | some .stub, _, _ => .ok []
  | some (.mqtt base), t, v => .ok [(base ++ t, v)]

/-- Outcome of the df probe in fs.go mount.update: an inner parse error
(early false return), or a mounted flag plus the computed used percentage
in basis points. -/
inductive DfResult
  | failed
  | ok (mounted : Bool) (usedPercent : Nat)
  deriving DecidableEq, Repr

/-- Embedding of fs.go mount.update with the df outcome supplied as an
oracle: returns the updated mount and the changed flag. -/
def mount.update (m : mount) (df : DfResult) : mount × Bool :=
  match df with
  | .failed => (m, false)
  | .ok mounted used =>
    let c1 : Bool := mounted ∧ used ≠ m.used
    let m1 := if c1 then { m with used := used } else m
    let c2 : Bool := m1.mounted ≠ mounted
    let m2 := if c2 then { m1 with mounted := mounted } else m1
    (m2, c1 ∨ c2)

/-- Rendering of the %.2f used percentage (basis points to a two-decimal
string), exact since the value is an integer number of centi-percent. -/
def centiStr (used : Nat) : String :=
  toString (used / 100) ++ "." ++ (if used % 100 < 10 then "0" else "") ++
    toString (used % 100)

/-- The state message built by fs.go mount.Refresh. -/
def mount.stateMsg (mounted : Bool) (used : Nat) : String :=
  if mounted then
    "\x7b\"mounted\": \"on\", \"used_percent\": " ++ centiStr used ++ "\x7d"
  else "\x7b\"mounted\": \"off\"\x7d"

/-- Embedding of fs.go mount.Publish: publish the cached message through
the embedded sensor's bound handle. -/
def mount.Publish (m : mount) : Except RuntimeFault (List (String × Payload)) :=
  PubSubPublish m.sensor.ps m.sensor.topic (.raw m.msg)

/-- Embedding of fs.go mount.Refresh: update from df; when nothing changed
and the refresh is not forced, return silently; otherwise rebuild the
message and publish it through the bound handle. -/
def mount.Refresh (m : mount) (df : DfResult) (forced : Bool) :
    Except RuntimeFault (mount × List (String × Payload)) :=
  let mc := m.update df
  if ¬mc.2 ∧ ¬forced then .ok (mc.1, [])
  else
    let m2 := { mc.1 with msg := mount.stateMsg mc.1.mounted mc.1.used }
    match m2.Publish with
    | .error e => .error e
    | .ok out => .ok (m2, out)

/-! ## Claim theorems: C5, C6, C7, C10 -/

/-- Formalisation of claim C5 exactly as stated: every payload that parses
as a duration d updates the period to d and publishes d — with no
restriction on the sign of d. -/
def SetPollPeriodParseClaim : Prop :=
  ∀ (s : PolledSensor) (b : String) (d : Int), parseDuration b = some d →
    ∃ s2 acts, PolledSensor.SetPollPeriod (some s) b = .ok (some s2, acts) ∧
      s2.poller.period = d ∧
      acts.filter PSAction.isPublish =
        [.publish (s.topic ++ "/poll_period") (.dur d)]

/-- C5 counterexample: the claim is false as stated.  The payload "-1s"
parses successfully to -1000000000 ns, but on a running sensor
UpdatePeriod then panics at p.t.Reset (time.Ticker.Reset rejects
non-positive intervals) before SetPollPeriod reaches its publish: nothing
is published and the process crashes instead of updating quietly. -/
theorem setPollPeriod_parse_claim_false : ¬ SetPollPeriodParseClaim := by
  intro hc
  obtain ⟨s2, acts, heq, -⟩ :=
    hc ⟨"/cpu", ⟨60000000000, false⟩, some .stub⟩ ("-1s") (-1000000000) (by rfl)
  have h2 : PolledSensor.SetPollPeriod
      (some ⟨"/cpu", ⟨60000000000, false⟩, some .stub⟩) ("-1s") =
      .error .resetNonPositive := by rfl
  rw [h2] at heq
  exact Except.noConfusion heq

/-- C5 amended: a payload parsing to a positive duration d updates the
Poller period to d and publishes exactly one message, d, to
topic/poll_period; a payload parsing to a non-positive duration on a
running (non-closed) Poller writes the period but then panics inside
UpdatePeriod at the ticker reset, before any publish; an unparseable
payload is ignored silently with no state change and no publish. -/
theorem setPollPeriod_duration_spec (s : PolledSensor) (b : String) :
    (∀ d, parseDuration b = some d → 0 < d →
      ∃ s2 acts, PolledSensor.SetPollPeriod (some s) b = .ok (some s2, acts) ∧
        s2.poller.period = d ∧ s2.topic = s.topic ∧ s2.ps = s.ps ∧
        acts.filter PSAction.isPublish =
          [.publish (s.topic ++ "/poll_period") (.dur d)]) ∧
    (∀ d, parseDuration b = some d → d ≤ 0 → s.poller.closed = false →
      PolledSensor.SetPollPeriod (some s) b = .error .resetNonPositive) ∧
    (parseDuration b = none →
      PolledSensor.SetPollPeriod (some s) b = .ok (some s, [])) := by
  refine ⟨?_, ?_, ?_⟩
  · intro d hd hpos
    refine ⟨{ s with poller := { s.poller with period := d } },
      (if s.poller.closed then [] else [.refresh false]) ++
        [.publish (s.topic ++ "/poll_period") (.dur d)], ?_, rfl, rfl, rfl, ?_⟩
    · by_cases h : s.poller.closed <;>
        simp [PolledSensor.SetPollPeriod, hd, PollerH.UpdatePeriod, h, hpos]
    · by_cases h : s.poller.closed <;> simp [h, PSAction.isPublish]
  · intro d hd hnp hcl
    have hlt : ¬0 < d := by omega
    simp [PolledSensor.SetPollPeriod, hd, PollerH.UpdatePeriod, hcl, hlt]
  · intro h
    simp [PolledSensor.SetPollPeriod, h]

/-- Witness for C5 amended at a concrete sensor: payload "1s" sets the
period to 1000000000 ns and publishes it; payload "-1s" parses but panics
at the ticker reset with no publish; payload "bogus" is ignored. -/
theorem setPollPeriod_duration_spec_witness :
    (∃ s2 acts,
      PolledSensor.SetPollPeriod
          (some ⟨"/cpu", ⟨60000000000, false⟩, some .stub⟩) ("1s") = .ok (some s2, acts) ∧
      s2.poller.period = 1000000000 ∧ s2.topic = "/cpu" ∧ s2.ps = some .stub ∧
      acts.filter PSAction.isPublish =
        [.publish ("/cpu" ++ "/poll_period") (.dur 1000000000)]) ∧
    PolledSensor.SetPollPeriod
        (some ⟨"/cpu", ⟨60000000000, false⟩, some .stub⟩) ("-1s") =
      .error .resetNonPositive ∧
    PolledSensor.SetPollPeriod
        (some ⟨"/cpu", ⟨60000000000, false⟩, some .stub⟩) ("bogus") =
      .ok (some ⟨"/cpu", ⟨60000000000, false⟩, some .stub⟩, []) :=
  ⟨(setPollPeriod_duration_spec ⟨"/cpu", ⟨60000000000, false⟩, some .stub⟩ ("1s")).1
      1000000000 (by rfl) (by decide),
   (setPollPeriod_duration_spec ⟨"/cpu", ⟨60000000000, false⟩, some .stub⟩ ("-1s")).2.1
      (-1000000000) (by rfl) (by decide) rfl,
   (setPollPeriod_duration_spec ⟨"/cpu", ⟨60000000000, false⟩, some .stub⟩ ("bogus")).2.2
      (by rfl)⟩

/-- C6: fs.go newMount leaves the embedded sensor's PubSub handle as the
nil interface rather than the StubPubSub placeholder, so a refresh that
publishes before the first Sync (for example a ticked refresh that sees a
df change while the transport is still connecting) dereferences nil
instead of harmlessly discarding the message. -/
theorem fs_mount_presync_publish_faults :
    ∃ m, newMount ("data") { Period := "10m", Path := "/data" } = .ok m ∧
      m.sensor.ps = none ∧
      mount.Refresh m (.ok true 1234) false = .error .nilDeref := by
  exact ⟨⟨⟨"/data", ⟨600000000000, false⟩, none⟩, "data", "/data", false, 0, ""⟩,
         by rfl, rfl, by rfl⟩

/-- Formalisation of claim C7 exactly as stated: every operation on a nil
*PolledSensor returns without fault and without effect. -/
def NilSafetyClaim : Prop :=
  PolledSensor.Close none = .ok none ∧
  (∀ ps, PolledSensor.Sync none ps = .ok (none, [])) ∧
  (∃ p, PolledSensor.Done none = .ok p) ∧
  (∀ b, ∃ r, PolledSensor.SetPollPeriod none b = .ok r)

/-- C7 counterexample: the claim is false as stated — Done on a nil
receiver dereferences s.poller and faults (and SetPollPeriod faults for
any payload that parses). -/
theorem nil_receiver_claim_false : ¬ NilSafetyClaim := by
  intro h
  rcases h.2.2.1 with ⟨p, hp⟩
  simp [PolledSensor.Done] at hp

/-- C7 amended: Close and Sync on a nil *PolledSensor are safe no-ops, as
is SetPollPeriod when the payload does not parse; but Done always faults
on nil, and SetPollPeriod faults on nil whenever its payload parses as a
duration. -/
theorem nil_receiver_safety (ps : PubSubRef) (b : String) :
    PolledSensor.Close none = .ok none ∧
    PolledSensor.Sync none ps = .ok (none, []) ∧
    PolledSensor.Done none = .error .nilDeref ∧
    (parseDuration b = none → PolledSensor.SetPollPeriod none b = .ok (none, [])) ∧
    (∀ d, parseDuration b = some d →
      PolledSensor.SetPollPeriod none b = .error .nilDeref) := by
  refine ⟨rfl, rfl, rfl, ?_, ?_⟩
  · intro h
    simp [PolledSensor.SetPollPeriod, h]
  · intro d h
    simp [PolledSensor.SetPollPeriod, h]

/-- Witness for C7 amended at concrete inputs: the parse hypotheses are
discharged at payloads "1s" (parses) and "bogus" (does not). -/
theorem nil_receiver_safety_witness :
    PolledSensor.SetPollPeriod none ("1s") = .error .nilDeref ∧
    PolledSensor.SetPollPeriod none ("bogus") = .ok (none, []) :=
  ⟨(nil_receiver_safety .stub ("1s")).2.2.2.2 1000000000 (by rfl),
   (nil_receiver_safety .stub ("bogus")).2.2.2.1 (by rfl)⟩

/-- C10: the cpu.go stats delta is new - old when the counter strictly
increased and 0 otherwise (never a wrapped huge value), and the net.go
gauge delta counts an increase only when both samples are valid, so every
derived rate is nonnegative. -/
theorem counter_delta_spec (old new : Nat) (g g2 : gauge) (td : ℚ)
    (htd : 0 < td) :
    delta old new = (if old < new then new - old else 0) ∧
    delta old new ≤ new ∧
    gauge.delta g g2 =
      (if g.valid = true ∧ g2.valid = true ∧ g.value < g2.value then
        g2.value - g.value else 0) ∧
    gauge.delta g g2 ≤ g2.value ∧
    0 ≤ gauge.rate g g2 td := by
  refine ⟨?_, ?_, ?_, ?_, ?_⟩
  · unfold delta; split_ifs <;> omega
  · unfold delta; split_ifs <;> omega
  · rfl
  · unfold gauge.delta; split_ifs <;> omega
  · exact div_nonneg (by positivity) htd.le

/-- Witness for C10 at concrete samples, including a counter reset
(10 down to 4) yielding delta 0 rather than an underflow. -/
theorem counter_delta_spec_witness :
    delta 10 4 = (if 10 < 4 then 4 - 10 else 0) ∧
    delta 10 4 ≤ 4 ∧
    gauge.delta ⟨true, 7⟩ ⟨true, 3⟩ =
      (if (true : Bool) = true ∧ (true : Bool) = true ∧ 7 < 3 then 3 - 7 else 0) ∧
    gauge.delta ⟨true, 7⟩ ⟨true, 3⟩ ≤ 3 ∧
    0 ≤ gauge.rate ⟨true, 7⟩ ⟨true, 3⟩ 1 :=
  counter_delta_spec 10 4 ⟨true, 7⟩ ⟨true, 3⟩ 1 (by norm_num)

/-! ## dunnart.go: entity configuration maps and JSON marshalling

Entity config maps (map[string]interface{} in Go) are embedded as
association lists with the Go map operations: lookup, containment,
delete, and set.  encoding/json marshals Go maps with sorted keys; the
renderer below does the same, so equal maps give byte-identical
payloads. -/

/-- A JSON-like dynamic value, the closed variant type behind the open
config maps of dunnart.go. -/
inductive JValue
  | str (s : String)
  | num (n : Int)
  | boolean (b : Bool)
  | arr (vs : List JValue)
  | obj (fields : List (String × JValue))

/-- An entity configuration map: association list with Go map
semantics. -/
abbrev Cfg := List (String × JValue)

/-- Go map membership test (configContains in dunnart.go). -/
def cfgContains : Cfg → String → Bool
  | [], _ => false
  | kv :: c, k => kv.1 == k || cfgContains c k

/-- Go map indexing: the value stored at k, none when absent (Go yields
the nil zero value there). -/
def cfgLookup : Cfg → String → Option JValue
  | [], _ => none
  | kv :: c, k => if kv.1 == k then some kv.2 else cfgLookup c k

/-- Go delete(cfg, k). -/
def cfgErase : Cfg → String → Cfg
  | [], _ => []
  | kv :: c, k => if kv.1 == k then cfgErase c k else kv :: cfgErase c k

/-- Go cfg[k] = v: replace the binding when present, append otherwise. -/
def cfgSet (c : Cfg) (k : String) (v : JValue) : Cfg :=
  if cfgContains c k then
    c.map (fun kv => if kv.1 == k then (k, v) else kv)
  else c ++ [(k, v)]

/-- The first loop of normaliseConfig: copy each base key into cfg only
when cfg does not already have it. -/
def cfgOverlay : Cfg → Cfg → Cfg
  | cfg, [] => cfg
  | cfg, kv :: base => cfgOverlay (if cfgContains cfg kv.1 then cfg else cfg ++ [kv]) base

/-- JSON string escaping (quotes and backslashes; enough for the payloads
at hand and deterministic, which is what the claims need). -/
def escapeJson (s : String) : String :=
  String.join (s.toList.map (fun c =>
    if c = '"' then "\\\"" else if c = '\\' then "\\\\" else String.singleton c))

/-- Render one object field. -/
def renderField (kv : String × String) : String :=
  "\"" ++ escapeJson kv.1 ++ "\":" ++ kv.2

/-- Embedding of encoding/json marshalling: object keys are emitted in
sorted order, as Go does for maps. -/
def renderJ : JValue → String
  | .str s => "\"" ++ escapeJson s ++ "\""
  | .num n => toString n
  | .boolean b => if b then "true" else "false"
  | .arr vs => "[" ++ String.intercalate "," (vs.attach.map (fun v => renderJ v.1)) ++ "]"
  | .obj fs =>
    "\x7b" ++
      String.intercalate ","
        ((List.insertionSort (fun a b => a.1 ≤ b.1)
            (fs.attach.map (fun kv => (kv.1.1, renderJ kv.1.2)))).map renderField) ++
      "\x7d"
decreasing_by
  · have h := List.sizeOf_lt_of_mem v.2
    simp only [JValue.arr.sizeOf_spec]
    omega
  · have h := List.sizeOf_lt_of_mem kv.2
    rcases kv with ⟨⟨ks, kvj⟩, hm⟩
    simp only [Prod.mk.sizeOf_spec] at h
    simp only [JValue.obj.sizeOf_spec]
    omega

/-- Go compares cfg with the string "~": true exactly when the stored
value is the string "~" (an absent key yields nil, which is not). -/
def isBaseAlias : Option JValue → Bool
  | some (.str s) => s == "~"
  | _ => false

/-- The availability-topic defaulting statement of dunnart.go
normaliseConfig (lines 313-333): when neither an availability_topic nor an
availability key is present, default the availability topic to the base
alias. -/
def normaliseAvail (c : Cfg) : Cfg :=
  if ¬cfgContains c ("availability_topic") ∧ ¬cfgContains c ("availability") then
    c ++ [("availability_topic", .str "~")]
  else c

/-- The availability-topic deletion statement of normaliseConfig: when the
state topic is exactly the base alias, delete the availability topic. -/
def normaliseState (c : Cfg) : Cfg :=
  if isBaseAlias (cfgLookup c ("state_topic")) then cfgErase c ("availability_topic")
  else c

/-- The mutated map produced by dunnart.go normaliseConfig: overlay the
base defaults for missing keys, default the availability topic, delete it
again when the state topic is the base alias. -/
def normaliseCore (cfg base : Cfg) : Cfg :=
  normaliseState (normaliseAvail (cfgOverlay cfg base))

/-- Embedding of dunnart.go normaliseConfig, as the pair of the mutated
map and the marshalled JSON string. -/
def normaliseConfig (cfg base : Cfg) : Cfg × String :=
  (normaliseCore cfg base, renderJ (.obj (normaliseCore cfg base)))

/-! ### Association-list facts used for the normalisation claims -/

theorem cfgContains_append (a b : Cfg) (k : String) :
    cfgContains (a ++ b) k = (cfgContains a k || cfgContains b k) := by
  induction a with
  | nil => simp [cfgContains]
  | cons kv as ih => simp [cfgContains, ih, Bool.or_assoc]

theorem cfgLookup_append_left (a b : Cfg) (k : String)
    (h : cfgContains a k = true) : cfgLookup (a ++ b) k = cfgLookup a k := by
  induction a with
  | nil => simp [cfgContains] at h
  | cons kv as ih =>
    by_cases hk : kv.1 = k
    · simp [cfgLookup, hk]
    · simp [cfgContains, hk] at h
      simp [cfgLookup, hk, ih h]

theorem cfgLookup_append_right (a b : Cfg) (k : String)
    (h : cfgContains a k = false) : cfgLookup (a ++ b) k = cfgLookup b k := by
  induction a with
  | nil => simp [cfgLookup]
  | cons kv as ih =>
    simp [cfgContains] at h
    simp [cfgLookup, h.1, ih h.2]

theorem cfgErase_of_not_contains (c : Cfg) (k : String)
    (h : cfgContains c k = false) : cfgErase c k = c := by
  induction c with
  | nil => rfl
  | cons kv cs ih =>
    simp [cfgContains] at h
    simp [cfgErase, h.1, ih h.2]

theorem cfgContains_erase_self (c : Cfg) (k : String) :
    cfgContains (cfgErase c k) k = false := by
  induction c with
  | nil => rfl
  | cons kv cs ih => by_cases hk : kv.1 = k <;> simp [cfgErase, cfgContains, hk, ih]

theorem cfgLookup_erase_ne (c : Cfg) (k k2 : String) (h : ¬k2 = k) :
    cfgLookup (cfgErase c k) k2 = cfgLookup c k2 := by
  have h2 : ¬k = k2 := fun e => h e.symm
  induction c with
  | nil => rfl
  | cons kv cs ih =>
    by_cases hk : kv.1 = k
    · simp [cfgErase, cfgLookup, hk, h2, ih]
    · by_cases hk2 : kv.1 = k2 <;> simp [cfgErase, cfgLookup, h, hk, hk2, ih]

theorem cfgContains_erase_ne (c : Cfg) (k k2 : String) (h : ¬k2 = k) :
    cfgContains (cfgErase c k) k2 = cfgContains c k2 := by
  have h2 : ¬k = k2 := fun e => h e.symm
  induction c with
  | nil => rfl
  | cons kv cs ih =>
    by_cases hk : kv.1 = k
    · simp [cfgErase, cfgContains, hk, h2, ih]
    · by_cases hk2 : kv.1 = k2 <;> simp [cfgErase, cfgContains, h, hk, hk2, ih]

theorem cfgErase_append (a b : Cfg) (k : String) :
    cfgErase (a ++ b) k = cfgErase a k ++ cfgErase b k := by
  induction a with
  | nil => rfl
  | cons kv as ih => by_cases hk : kv.1 = k <;> simp [cfgErase, hk, ih]

theorem cfgContains_overlay_mono (base : Cfg) : ∀ c k, cfgContains c k = true →
    cfgContains (cfgOverlay c base) k = true := by
  induction base with
  | nil => intro c k h; exact h
  | cons kv bs ih =>
    intro c k h
    cases hc : cfgContains c kv.1 with
    | true => simpa [cfgOverlay, hc] using ih c k h
    | false =>
      have h2 : cfgContains (c ++ [kv]) k = true := by
        rw [cfgContains_append, h]; rfl
      simpa [cfgOverlay, hc] using ih _ k h2

theorem cfgLookup_overlay_of_contains (base : Cfg) : ∀ c k, cfgContains c k = true →
    cfgLookup (cfgOverlay c base) k = cfgLookup c k := by
  induction base with
  | nil => intro c k _; rfl
  | cons kv bs ih =>
    intro c k h
    cases hc : cfgContains c kv.1 with
    | true => simpa [cfgOverlay, hc] using ih c k h
    | false =>
      have h2 : cfgContains (c ++ [kv]) k = true := by
        rw [cfgContains_append, h]; rfl
      have h3 := ih (c ++ [kv]) k h2
      rw [cfgLookup_append_left _ _ _ h] at h3
      simpa [cfgOverlay, hc] using h3

theorem cfgContains_overlay_base (base : Cfg) : ∀ c, ∀ kv ∈ base,
    cfgContains (cfgOverlay c base) kv.1 = true := by
  induction base with
  | nil => intro c kv hm; cases hm
  | cons kv2 bs ih =>
    intro c kv hm
    cases hm with
    | head =>
      cases hc : cfgContains c kv2.1 with
      | true => simpa [cfgOverlay, hc] using cfgContains_overlay_mono bs c kv2.1 hc
      | false =>
        have h2 : cfgContains (c ++ [kv2]) kv2.1 = true := by
          rw [cfgContains_append]
          simp [cfgContains]
        simpa [cfgOverlay, hc] using cfgContains_overlay_mono bs _ kv2.1 h2
    | tail _ hm2 =>
      cases hc : cfgContains c kv2.1 with
      | true => simpa [cfgOverlay, hc] using ih c kv hm2
      | false => simpa [cfgOverlay, hc] using ih _ kv hm2

theorem cfgOverlay_of_contained (base : Cfg) : ∀ c,
    (∀ kv ∈ base, cfgContains c kv.1 = true) → cfgOverlay c base = c := by
  induction base with
  | nil => intro c _; rfl
  | cons kv bs ih =>
    intro c h
    have h1 := h kv (List.mem_cons_self kv bs)
    have := ih c (fun kv2 hm => h kv2 (List.mem_cons_of_mem _ hm))
    simpa [cfgOverlay, h1] using this

theorem cfgLookup_eq_none_of_not_contains (c : Cfg) (k : String)
    (h : cfgContains c k = false) : cfgLookup c k = none := by
  induction c with
  | nil => rfl
  | cons kv cs ih =>
    simp [cfgContains] at h
    simp [cfgLookup, h.1, ih h.2]

theorem cfgLookup_snoc_ne (c : Cfg) (a k : String) (v : JValue) (h : ¬a = k) :
    cfgLookup (c ++ [(a, v)]) k = cfgLookup c k := by
  cases hc : cfgContains c k with
  | true => exact cfgLookup_append_left _ _ _ hc
  | false =>
    rw [cfgLookup_append_right _ _ _ hc, cfgLookup_eq_none_of_not_contains _ _ hc]
    simp [cfgLookup, h]

/-! ### Behaviour of the normalisation stages -/

theorem normaliseAvail_lookup_ne (c : Cfg) (k : String)
    (h : ¬"availability_topic" = k) :
    cfgLookup (normaliseAvail c) k = cfgLookup c k := by
  unfold normaliseAvail
  split
  · exact cfgLookup_snoc_ne _ _ _ _ h
  · rfl

theorem normaliseAvail_keeps (c : Cfg) :
    cfgContains (normaliseAvail c) ("availability_topic") = true ∨
    cfgContains (normaliseAvail c) ("availability") = true := by
  unfold normaliseAvail
  split
  · left
    rw [cfgContains_append]
    simp [cfgContains]
  · rename_i h
    rcases not_and_or.mp h with h1 | h1 <;> [left; right] <;>
      simpa using not_not.mp h1

theorem normaliseAvail_contains_mono (c : Cfg) (k : String)
    (h : cfgContains c k = true) :
    cfgContains (normaliseAvail c) k = true := by
  unfold normaliseAvail
  split
  · rw [cfgContains_append, h]; rfl
  · exact h

theorem normaliseState_lookup_ne (c : Cfg) (k : String)
    (h : ¬"availability_topic" = k) :
    cfgLookup (normaliseState c) k = cfgLookup c k := by
  unfold normaliseState
  split
  · exact cfgLookup_erase_ne _ _ _ (fun e => h e.symm)
  · rfl

theorem normaliseState_contains_mono (c : Cfg) (k : String)
    (hk : ¬k = "availability_topic") (h : cfgContains c k = true) :
    cfgContains (normaliseState c) k = true := by
  unfold normaliseState
  split
  · rw [cfgContains_erase_ne _ _ _ hk]; exact h
  · exact h

/-! ### Fixed points of the normalisation stages -/

theorem normaliseFix_alias (n : Cfg)
    (hnat : cfgContains n ("availability_topic") = false)
    (hnst : isBaseAlias (cfgLookup n ("state_topic")) = true) :
    normaliseState (normaliseAvail n) = n := by
  cases hav : cfgContains n ("availability") with
  | true =>
    have h4 : normaliseAvail n = n := by
      unfold normaliseAvail
      rw [if_neg]
      intro hcond
      rw [hav] at hcond
      exact hcond.2 rfl
    rw [h4]
    unfold normaliseState
    rw [if_pos hnst]
    exact cfgErase_of_not_contains _ _ hnat
  | false =>
    have h4 : normaliseAvail n = n ++ [("availability_topic", .str "~")] := by
      unfold normaliseAvail
      rw [if_pos (by simp [hnat, hav])]
    rw [h4]
    unfold normaliseState
    rw [cfgLookup_snoc_ne n ("availability_topic") ("state_topic") (JValue.str "~")
        (by decide)]
    rw [if_pos hnst]
    rw [cfgErase_append, cfgErase_of_not_contains _ _ hnat]
    rw [show cfgErase [("availability_topic", JValue.str "~")] ("availability_topic") =
          ([] : Cfg) from rfl]
    simp

theorem normaliseFix_not_alias (n : Cfg)
    (hkeep : cfgContains n ("availability_topic") = true ∨
      cfgContains n ("availability") = true)
    (hnst : isBaseAlias (cfgLookup n ("state_topic")) = false) :
    normaliseState (normaliseAvail n) = n := by
  have h4 : normaliseAvail n = n := by
    unfold normaliseAvail
    rw [if_neg]
    intro hcond
    rcases hkeep with h | h
    · exact hcond.1 h
    · exact hcond.2 h
  rw [h4]
  unfold normaliseState
  rw [if_neg (by simp [hnst])]

/-- Re-normalising an already-normalised map (with a base that does not
carry an availability_topic key, as the discovery builder's base never
does) changes nothing: the mutation left in the entity's own map by the
first run is a fixed point of the second. -/
theorem normaliseCore_idem (cfg base : Cfg)
    (hb : ∀ kv ∈ base, ¬kv.1 = "availability_topic") :
    normaliseCore (normaliseCore cfg base) base = normaliseCore cfg base := by
  have hkeys : ∀ kv ∈ base, cfgContains (normaliseCore cfg base) kv.1 = true := by
    intro kv hm
    exact normaliseState_contains_mono _ _ (hb kv hm)
      (normaliseAvail_contains_mono _ _ (cfgContains_overlay_base base cfg kv hm))
  have hov : cfgOverlay (normaliseCore cfg base) base = normaliseCore cfg base :=
    cfgOverlay_of_contained base _ hkeys
  show normaliseState (normaliseAvail (cfgOverlay (normaliseCore cfg base) base)) =
    normaliseCore cfg base
  rw [hov]
  cases hst : isBaseAlias
      (cfgLookup (normaliseAvail (cfgOverlay cfg base)) ("state_topic")) with
  | true =>
    have hn : normaliseCore cfg base =
        cfgErase (normaliseAvail (cfgOverlay cfg base)) ("availability_topic") := by
      unfold normaliseCore normaliseState
      rw [if_pos hst]
    apply normaliseFix_alias
    · rw [hn]
      exact cfgContains_erase_self _ _
    · rw [hn, cfgLookup_erase_ne _ _ _
        (by decide : ¬("state_topic") = ("availability_topic"))]
      exact hst
  | false =>
    have hn : normaliseCore cfg base = normaliseAvail (cfgOverlay cfg base) := by
      unfold normaliseCore normaliseState
      rw [if_neg (by simp [hst])]
    apply normaliseFix_not_alias
    · rw [hn]
      exact normaliseAvail_keeps _
    · rw [hn]
      exact hst

/-! ### Claim C8 -/

/-- Formalisation of the final conjunct of claim C8 exactly as stated: an
availability topic the entity supplied itself survives normalisation even
when the entity's state topic is the base alias. -/
def AvailabilityPreservedClaim : Prop :=
  ∀ cfg base : Cfg, cfgContains cfg ("availability_topic") = true →
    cfgContains (normaliseConfig cfg base).1 ("availability_topic") = true

/-- C8 counterexample: the claim is false as stated.  For the entity map
with state_topic "~" and its own availability_topic, normaliseConfig
deletes the entity-supplied availability topic — the delete in the source
is unconditional on provenance. -/
theorem availability_preserved_claim_false : ¬ AvailabilityPreservedClaim := by
  intro h
  have h1 := h [("state_topic", .str "~"), ("availability_topic", .str "x")] []
    (by decide)
  have h2 : cfgContains
      (normaliseConfig [("state_topic", .str "~"), ("availability_topic", .str "x")] []).1
      ("availability_topic") = false := by decide
  rw [h1] at h2
  exact Bool.noConfusion h2

/-- C8 amended: base defaults are copied only for keys the entity map does
not already have; when neither availability key is present (and the state
topic is not the base alias) the availability topic defaults to "~"; and
when the state topic equals "~" the availability_topic key is removed from
the result regardless of whether it was the default or supplied by the
entity (when the state topic is not "~", a supplied availability topic is
preserved). -/
theorem normaliseConfig_spec (cfg base : Cfg) :
    (∀ k, cfgContains cfg k = true →
      cfgLookup (cfgOverlay cfg base) k = cfgLookup cfg k) ∧
    (∀ kv ∈ base, cfgContains (cfgOverlay cfg base) kv.1 = true) ∧
    (cfgContains (cfgOverlay cfg base) ("availability_topic") = false →
      cfgContains (cfgOverlay cfg base) ("availability") = false →
      isBaseAlias (cfgLookup (cfgOverlay cfg base) ("state_topic")) = false →
      cfgLookup (normaliseConfig cfg base).1 ("availability_topic") =
        some (.str "~")) ∧
    (isBaseAlias (cfgLookup (cfgOverlay cfg base) ("state_topic")) = true →
      cfgContains (normaliseConfig cfg base).1 ("availability_topic") = false) ∧
    (isBaseAlias (cfgLookup (cfgOverlay cfg base) ("state_topic")) = false →
      cfgContains cfg ("availability_topic") = true →
      cfgLookup (normaliseConfig cfg base).1 ("availability_topic") =
        cfgLookup cfg ("availability_topic")) := by
  refine ⟨fun k h => cfgLookup_overlay_of_contains base cfg k h,
         fun kv hm => cfgContains_overlay_base base cfg kv hm, ?_, ?_, ?_⟩
  · intro hat hav hst
    show cfgLookup (normaliseCore cfg base) ("availability_topic") = some (.str "~")
    have h2 : normaliseAvail (cfgOverlay cfg base) =
        cfgOverlay cfg base ++ [("availability_topic", .str "~")] := by
      unfold normaliseAvail
      rw [if_pos (by simp [hat, hav])]
    unfold normaliseCore
    rw [h2]
    unfold normaliseState
    rw [cfgLookup_snoc_ne (cfgOverlay cfg base) ("availability_topic") ("state_topic")
        (JValue.str "~") (by decide)]
    rw [if_neg (by simp [hst])]
    rw [cfgLookup_append_right _ _ _ hat]
    simp [cfgLookup]
  · intro hst
    show cfgContains (normaliseCore cfg base) ("availability_topic") = false
    unfold normaliseCore normaliseState
    split
    · exact cfgContains_erase_self _ _
    · rename_i hno
      rw [normaliseAvail_lookup_ne _ _ (by decide), hst] at hno
      exact absurd rfl hno
  · intro hst hcat
    show cfgLookup (normaliseCore cfg base) ("availability_topic") =
      cfgLookup cfg ("availability_topic")
    have h1 : cfgContains (cfgOverlay cfg base) ("availability_topic") = true :=
      cfgContains_overlay_mono base cfg _ hcat
    have h2 : normaliseAvail (cfgOverlay cfg base) = cfgOverlay cfg base := by
      unfold normaliseAvail
      rw [if_neg]
      intro hcond
      rw [h1] at hcond
      exact hcond.1 rfl
    unfold normaliseCore
    rw [h2]
    unfold normaliseState
    rw [if_neg (by simp [hst])]
    exact cfgLookup_overlay_of_contains base cfg _ hcat

/-- Witness for C8 amended, instantiating each conjunct at a concrete
entity map: own keys win over base defaults; the default appears when no
availability key is present; the availability topic is removed when the
state topic is "~"; and it is preserved when the state topic is not "~". -/
theorem normaliseConfig_spec_witness :
    cfgLookup (cfgOverlay [("name", .str "x"), ("availability_topic", .str "c")]
        [("~", .str "b")]) ("availability_topic") =
      cfgLookup [("name", .str "x"), ("availability_topic", .str "c")]
        ("availability_topic") ∧
    cfgContains (cfgOverlay [("name", .str "x"), ("availability_topic", .str "c")]
        [("~", .str "b")]) ("~") = true ∧
    cfgLookup (normaliseConfig [("state_topic", .str "~/cpu")] [("~", .str "b")]).1
        ("availability_topic") = some (.str "~") ∧
    cfgContains (normaliseConfig
        [("state_topic", .str "~"), ("availability_topic", .str "x")] []).1
        ("availability_topic") = false ∧
    cfgLookup (normaliseConfig
        [("state_topic", .str "~/m"), ("availability_topic", .str "y")] []).1
        ("availability_topic") =
      cfgLookup [("state_topic", .str "~/m"), ("availability_topic", .str "y")]
        ("availability_topic") :=
  ⟨(normaliseConfig_spec [("name", .str "x"), ("availability_topic", .str "c")]
      [("~", .str "b")]).1 ("availability_topic") (by decide),
   (normaliseConfig_spec [("name", .str "x"), ("availability_topic", .str "c")]
      [("~", .str "b")]).2.1 ("~", .str "b") (by simp),
   (normaliseConfig_spec [("state_topic", .str "~/cpu")] [("~", .str "b")]).2.2.1
      (by decide) (by decide) (by decide),
   (normaliseConfig_spec [("state_topic", .str "~"), ("availability_topic", .str "x")]
      []).2.2.2.1 (by decide),
   (normaliseConfig_spec [("state_topic", .str "~/m"), ("availability_topic", .str "y")]
      []).2.2.2.2 (by decide) (by decide)⟩

/-! ## dunnart.go: newDiscovery (lines 250-292) -/

/-- One discoverable entity as the builder sees it: its module name, its
EntityConfig name and class, and its (module-owned, mutated-in-place)
config map. -/
structure DiscoEnt where
  modName : String
  ename : String
  eclass : String
  econfig : Cfg

/-- The discovery settings newDiscovery reads: the discovery topic root
(the config key named like the discovery consumer's namespace), unique
device id, node id, mac and base topic. -/
structure DiscoParams where
  discRoot : String
  uid : String
  nodeID : String
  mac : String
  baseTopic : String

/-- The per-entity unique id: uid, dash module name when nonempty, dash
entity name. -/
def entityUID (P : DiscoParams) (mn en : String) : String :=
  P.uid ++ (if mn = "" then "" else "-" ++ mn) ++ "-" ++ en

/-- The per-entity state of the shared baseCfg map at the point
normaliseConfig is called: the literal map of newDiscovery (base-topic
alias and device block) plus the unique_id and object_id assignments made
just before the call (fresh keys, hence appended). -/
def entityBase (P : DiscoParams) (mn en : String) : Cfg :=
  [("~", .str P.baseTopic),
   ("device", .obj [("name", .str P.nodeID),
      ("connections", .arr [.arr [.str "mac", .str P.mac]])]),
   ("unique_id", .str (entityUID P mn en)),
   ("object_id", .str (String.intercalate "_" [P.nodeID, mn, en]))]

/-- The discovery topic: root/class/unique-id/config. -/
def entityTopicStr (P : DiscoParams) (mn en ec : String) : String :=
  String.intercalate "/" [P.discRoot, ec, entityUID P mn en, "config"]

/-- One iteration of the newDiscovery entity loop: normalise the entity's
config against the base map (mutating the entity's map in place — the
mutated map is returned in the entity) and record the (topic, payload)
pair, with the node-id placeholder substituted textually in the JSON. -/
def entityRecord (P : DiscoParams) : DiscoEnt → DiscoEnt × (String × String)
  | ⟨mn, en, ec, cfg⟩ =>
    let nc := normaliseConfig cfg (entityBase P mn en)
    (⟨mn, en, ec, nc.1⟩,
     (entityTopicStr P mn en ec, nc.2.replace ("\x7b\x7b.NodeId\x7d\x7d") P.nodeID))

/-- The newDiscovery entity loop over all discoverable entities, returning
the entities with their mutated config maps together with the
announcement table. -/
def discoveryScan (P : DiscoParams) : List DiscoEnt → List DiscoEnt × List (String × String)
  | [] => ([], [])
  | e :: es =>
    ((entityRecord P e).1 :: (discoveryScan P es).1,
     (entityRecord P e).2 :: (discoveryScan P es).2)

/-- Embedding of newDiscovery: with an empty discovery root the table is
empty and no entity map is touched; otherwise every discoverable entity
is normalised and recorded. -/
def newDiscovery (P : DiscoParams) (es : List DiscoEnt) :
    List DiscoEnt × List (String × String) :=
  if P.discRoot = "" then (es, []) else discoveryScan P es

theorem entityBase_keys (P : DiscoParams) (mn en : String) :
    ∀ kv ∈ entityBase P mn en, ¬kv.1 = "availability_topic" := by
  intro kv hm
  simp only [entityBase, List.mem_cons, List.not_mem_nil, or_false] at hm
  rcases hm with rfl | rfl | rfl | rfl <;> simp

theorem entityRecord_idem (P : DiscoParams) (e : DiscoEnt) :
    entityRecord P (entityRecord P e).1 = entityRecord P e := by
  obtain ⟨mn, en, ec, cfg⟩ := e
  have hidem := normaliseCore_idem cfg (entityBase P mn en) (entityBase_keys P mn en)
  simp only [entityRecord, normaliseConfig]
  rw [hidem]

theorem discoveryScan_idem (P : DiscoParams) : ∀ es : List DiscoEnt,
    discoveryScan P (discoveryScan P es).1 = discoveryScan P es := by
  intro es
  induction es with
  | nil => rfl
  | cons e es ih =>
    calc discoveryScan P (discoveryScan P (e :: es)).1
        = ((entityRecord P (entityRecord P e).1).1 ::
             (discoveryScan P (discoveryScan P es).1).1,
           (entityRecord P (entityRecord P e).1).2 ::
             (discoveryScan P (discoveryScan P es).1).2) := rfl
      _ = ((entityRecord P e).1 :: (discoveryScan P es).1,
           (entityRecord P e).2 :: (discoveryScan P es).2) := by
            rw [entityRecord_idem P e, ih]
      _ = discoveryScan P (e :: es) := rfl

/-- C9: the discovery announcement table construction is idempotent.
Running the builder a second time over the entity configurations mutated
in place by the first run yields exactly the same (topic, payload) table,
byte-identical JSON included (the marshaller emits sorted keys, and the
first run's mutation is a fixed point of normalisation). -/
theorem newDiscovery_idempotent (P : DiscoParams) (es : List DiscoEnt) :
    (newDiscovery P (newDiscovery P es).1).2 = (newDiscovery P es).2 := by
  unfold newDiscovery
  by_cases h : P.discRoot = ""
  · simp [h]
  · simp only [if_neg h]
    rw [discoveryScan_idem P es]

/-! ## poller.go: the Poller goroutines (lines 12-90) as a transition system

NewPoller starts two goroutines: a dispatch loop that receives on the
unbuffered refresh channel and runs the callback, and a tick loop that
forwards ticker fires onto the refresh channel.  Refresh, UpdatePeriod
and Close run in caller goroutines.  The embedding is a small-step
interleaving semantics:

* an unbuffered channel send/receive pair is one atomic rendezvous step;
* a Go select with several ready branches may take any of them (so after
  close(done) a racing sender can still be chosen over the done branch,
  exactly as Go's pseudo-random selection allows);
* the closed done channel is the Bool field done;
* caller goroutines in flight are the ops list (one entry per pending
  call, positioned at its current statement);
* the trace records the observable events, with a ghost tag on each
  delivered refresh saying which kind of sender it rendezvoused with. -/

/-- Ghost tag: which sender a delivered refresh rendezvoused with. -/
inductive Src
  | tick
  | refreshReq
  | update
  deriving DecidableEq, Repr

/-- Observable events of a Poller run.  The panicked event records the
panic time.Ticker.Reset raises on a non-positive stored period, which in
the real program aborts the whole process. -/
inductive Ev
  | start (forced : Bool) (src : Src)
  | finish
  | tickFire (interval : Int)
  | closed
  | reset (interval : Int)
  | panicked
  deriving DecidableEq, Repr

/-- The dispatch-loop goroutine: at its select, executing f(forced), or
returned. -/
inductive DState
  | idle
  | busy (forced : Bool)
  | exited
  deriving DecidableEq, Repr

/-- The tick-loop goroutine: at its outer select, at the inner select
trying to forward a fire, or returned. -/
inductive TState
  | waiting
  | sending
  | exited
  deriving DecidableEq, Repr

/-- A caller goroutine inside one of the Poller's exported methods:
Refresh at its select; UpdatePeriod before the period write, at its
select, or between the accepted send and the ticker reset; Close about to
close done. -/
inductive OpKind
  | refreshing (forced : Bool)
  | updWrite (p : Int)
  | updSel (p : Int)
  | updReset (p : Int)
  | closing
  deriving DecidableEq, Repr

/-- Global state of one Poller with its goroutines and pending callers. -/
structure Poller where
  period : Int
  tick : Int
  done : Bool
  disp : DState
  ticker : TState
  ops : List OpKind
  trace : List Ev
  deriving DecidableEq, Repr

/-- Embedding of NewPoller: both loops started, ticker armed at the
configured period, no pending callers. -/
def NewPoller (period : Int) : Poller :=
  { period := period, tick := period, done := false, disp := .idle,
    ticker := .waiting, ops := [], trace := [] }

/-- One interleaving step.  With env = true the environment may also
spawn new method calls at any time (spawn); with env = false only the
already-pending calls run.  The reset stage of UpdatePeriod calls
p.t.Reset(p.period), which resets the ticker when the stored period is
positive and panics otherwise (op_upd_reset_panic) — in the real program
the unrecovered panic aborts the whole process; the model records the
panicked event and conservatively still lets the other goroutines step,
which only adds traces for the safety theorems to cover. -/
inductive Step : Bool → Poller → Poller → Prop
  | dispatch_op (env : Bool) (s : Poller) (l₁ l₂ : List OpKind) (f : Bool)
      (hd : s.disp = .idle) (hops : s.ops = l₁ ++ .refreshing f :: l₂) :
      Step env s { s with
                    disp := .busy f
                    ops := l₁ ++ l₂
                    trace := s.trace ++ [.start f .refreshReq] }
  | dispatch_upd (env : Bool) (s : Poller) (l₁ l₂ : List OpKind) (p : Int)
      (hd : s.disp = .idle) (hops : s.ops = l₁ ++ .updSel p :: l₂) :
      Step env s { s with
                    disp := .busy false
                    ops := l₁ ++ .updReset p :: l₂
                    trace := s.trace ++ [.start false .update] }
  | dispatch_tick (env : Bool) (s : Poller)
      (hd : s.disp = .idle) (ht : s.ticker = .sending) :
      Step env s { s with
                    disp := .busy false
                    ticker := .waiting
                    trace := s.trace ++ [.start false .tick] }
  | dispatch_done (env : Bool) (s : Poller)
      (hd : s.disp = .idle) (hdone : s.done = true) :
      Step env s { s with disp := .exited }
  | dispatch_finish (env : Bool) (s : Poller) (f : Bool)
      (hd : s.disp = .busy f) :
      Step env s { s with disp := .idle, trace := s.trace ++ [.finish] }
  | tick_fire (env : Bool) (s : Poller)
      (ht : s.ticker = .waiting) :
      Step env s { s with ticker := .sending, trace := s.trace ++ [.tickFire s.tick] }
  | tick_done (env : Bool) (s : Poller)
      (ht : s.ticker = .waiting) (hdone : s.done = true) :
      Step env s { s with ticker := .exited }
  | tick_send_done (env : Bool) (s : Poller)
      (ht : s.ticker = .sending) (hdone : s.done = true) :
      Step env s { s with ticker := .exited }
  | op_refresh_done (env : Bool) (s : Poller) (l₁ l₂ : List OpKind) (f : Bool)
      (hdone : s.done = true) (hops : s.ops = l₁ ++ .refreshing f :: l₂) :
      Step env s { s with ops := l₁ ++ l₂ }
  | op_upd_write (env : Bool) (s : Poller) (l₁ l₂ : List OpKind) (p : Int)
      (hops : s.ops = l₁ ++ .updWrite p :: l₂) :
      Step env s { s with period := p, ops := l₁ ++ .updSel p :: l₂ }
  | op_upd_done (env : Bool) (s : Poller) (l₁ l₂ : List OpKind) (p : Int)
      (hdone : s.done = true) (hops : s.ops = l₁ ++ .updSel p :: l₂) :
      Step env s { s with ops := l₁ ++ l₂ }
  | op_upd_reset (env : Bool) (s : Poller) (l₁ l₂ : List OpKind) (p : Int)
      (hops : s.ops = l₁ ++ .updReset p :: l₂) (hpos : 0 < s.period) :
      Step env s { s with
                    tick := s.period
                    ops := l₁ ++ l₂
                    trace := s.trace ++ [.reset s.period] }
  | op_upd_reset_panic (env : Bool) (s : Poller) (l₁ l₂ : List OpKind) (p : Int)
      (hops : s.ops = l₁ ++ .updReset p :: l₂) (hnp : s.period ≤ 0) :
      Step env s { s with
                    ops := l₁ ++ l₂
                    trace := s.trace ++ [.panicked] }
  | op_close (env : Bool) (s : Poller) (l₁ l₂ : List OpKind)
      (hops : s.ops = l₁ ++ .closing :: l₂) :
      Step env s { s with
                    done := true
                    ops := l₁ ++ l₂
                    trace := s.trace ++ [.closed] }
  | spawn (env : Bool) (s : Poller) (k : OpKind) (he : env = true) :
      Step env s { s with ops := s.ops ++ [k] }

/-- Reachability by interleaving steps. -/
def Reach (env : Bool) : Poller → Poller → Prop :=
  Relation.ReflTransGen (Step env)

/-- Trace prefixes (own definition, used throughout). -/
def IsPre (a b : List Ev) : Prop := ∃ t, a ++ t = b

/-- Contribution of one event to the number of callback executions in
flight. -/
def evDelta : Ev → Int
  | .start _ _ => 1
  | .finish => -1
  | _ => 0

/-- Number of callback executions in flight after a trace. -/
def inFlight (tr : List Ev) : Int := (tr.map evDelta).sum

theorem inFlight_append (a b : List Ev) :
    inFlight (a ++ b) = inFlight a + inFlight b := by
  simp [inFlight]

theorem isPre_snoc_cases {pre tr : List Ev} {e : Ev}
    (h : IsPre pre (tr ++ [e])) : IsPre pre tr ∨ pre = tr ++ [e] := by
  obtain ⟨t, ht⟩ := h
  rcases t.eq_nil_or_concat with rfl | ⟨t2, x, rfl⟩
  · right
    simpa using ht
  · left
    refine ⟨t2, ?_⟩
    have := congrArg (fun l => l.dropLast) ht
    simpa [List.dropLast_concat, ← List.append_assoc] using this

/-- The serialisation invariant: every trace prefix has at most one (and
never a negative number of) executions in flight, and the in-flight count
at the end equals 1 exactly when the dispatch loop is inside the
callback. -/
def SerInv (s : Poller) : Prop :=
  (∀ pre, IsPre pre s.trace → 0 ≤ inFlight pre ∧ inFlight pre ≤ 1) ∧
  inFlight s.trace = (match s.disp with | .busy _ => 1 | _ => 0)

theorem inFlight_single (e : Ev) : inFlight [e] = evDelta e := by
  simp [inFlight]

theorem serInv_snoc_start {tr : List Ev} {f : Bool} {src : Src}
    (hp : ∀ pre, IsPre pre tr → 0 ≤ inFlight pre ∧ inFlight pre ≤ 1)
    (hz : inFlight tr = 0) :
    ∀ pre, IsPre pre (tr ++ [.start f src]) → 0 ≤ inFlight pre ∧ inFlight pre ≤ 1 := by
  intro pre h
  rcases isPre_snoc_cases h with h | rfl
  · exact hp pre h
  · rw [inFlight_append, hz, inFlight_single]
    exact ⟨by norm_num [evDelta], by norm_num [evDelta]⟩

theorem serInv_snoc_finish {tr : List Ev}
    (hp : ∀ pre, IsPre pre tr → 0 ≤ inFlight pre ∧ inFlight pre ≤ 1)
    (h1 : inFlight tr = 1) :
    ∀ pre, IsPre pre (tr ++ [.finish]) → 0 ≤ inFlight pre ∧ inFlight pre ≤ 1 := by
  intro pre h
  rcases isPre_snoc_cases h with h | rfl
  · exact hp pre h
  · rw [inFlight_append, h1, inFlight_single]
    exact ⟨by norm_num [evDelta], by norm_num [evDelta]⟩

theorem serInv_snoc_neutral {tr : List Ev} {e : Ev}
    (he : evDelta e = 0)
    (hp : ∀ pre, IsPre pre tr → 0 ≤ inFlight pre ∧ inFlight pre ≤ 1) :
    ∀ pre, IsPre pre (tr ++ [e]) → 0 ≤ inFlight pre ∧ inFlight pre ≤ 1 := by
  intro pre h
  rcases isPre_snoc_cases h with h | rfl
  · exact hp pre h
  · rw [inFlight_append, inFlight_single, he]
    have := hp tr ⟨[], by simp⟩
    omega

theorem serInv_step {env : Bool} {s s2 : Poller}
    (h : Step env s s2) (hi : SerInv s) : SerInv s2 := by
  obtain ⟨hp, hz⟩ := hi
  cases h with
  | dispatch_op l₁ l₂ f hd hops =>
    refine ⟨serInv_snoc_start hp (by rw [hz, hd]), ?_⟩
    rw [inFlight_append, hz, hd, inFlight_single]
    simp [evDelta]
  | dispatch_upd l₁ l₂ p hd hops =>
    refine ⟨serInv_snoc_start hp (by rw [hz, hd]), ?_⟩
    rw [inFlight_append, hz, hd, inFlight_single]
    simp [evDelta]
  | dispatch_tick hd ht =>
    refine ⟨serInv_snoc_start hp (by rw [hz, hd]), ?_⟩
    rw [inFlight_append, hz, hd, inFlight_single]
    simp [evDelta]
  | dispatch_done hd hdone =>
    exact ⟨hp, by rw [hz, hd]⟩
  | dispatch_finish f hd =>
    refine ⟨serInv_snoc_finish hp (by rw [hz, hd]), ?_⟩
    rw [inFlight_append, hz, hd, inFlight_single]
    simp [evDelta]
  | tick_fire ht =>
    refine ⟨serInv_snoc_neutral rfl hp, ?_⟩
    rw [inFlight_append, hz, inFlight_single]
    simp [evDelta]
  | tick_done ht hdone => exact ⟨hp, hz⟩
  | tick_send_done ht hdone => exact ⟨hp, hz⟩
  | op_refresh_done l₁ l₂ f hdone hops => exact ⟨hp, hz⟩
  | op_upd_write l₁ l₂ p hops => exact ⟨hp, hz⟩
  | op_upd_done l₁ l₂ p hdone hops => exact ⟨hp, hz⟩
  | op_upd_reset l₁ l₂ p hops hpos =>
    refine ⟨serInv_snoc_neutral rfl hp, ?_⟩
    rw [inFlight_append, hz, inFlight_single]
    simp [evDelta]
  | op_upd_reset_panic l₁ l₂ p hops hnp =>
    refine ⟨serInv_snoc_neutral rfl hp, ?_⟩
    rw [inFlight_append, hz, inFlight_single]
    simp [evDelta]
  | op_close l₁ l₂ hops =>
    refine ⟨serInv_snoc_neutral rfl hp, ?_⟩
    rw [inFlight_append, hz, inFlight_single]
    simp [evDelta]
  | spawn k he => exact ⟨hp, hz⟩

theorem serInv_init (p : Int) : SerInv (NewPoller p) := by
  constructor
  · intro pre h
    obtain ⟨t, ht⟩ := h
    have hpre : pre = [] := by
      have := List.append_eq_nil.mp ht
      exact this.1
    subst hpre
    simp [inFlight]
  · rfl

/-- C1: within one Poller, callback invocations are strictly serialized.
Every invocation runs inside the single dispatch-loop goroutine, whether
the request came from the ticker, Refresh or UpdatePeriod: along every
reachable trace (with arbitrary concurrent method calls), every prefix has
at most one callback execution in flight. -/
theorem poller_refreshes_serialized (p : Int) (s : Poller)
    (h : Reach true (NewPoller p) s) :
    ∀ pre, IsPre pre s.trace → inFlight pre ≤ 1 := by
  have hi : SerInv s := by
    induction h with
    | refl => exact serInv_init p
    | tail h1 hstep ih => exact serInv_step hstep ih
  exact fun pre hp => (hi.1 pre hp).2

/-- Witness for C1 on a concrete two-step run: spawn a Refresh(true) call
and let the dispatch loop accept it; the resulting trace satisfies the
bound. -/
theorem poller_refreshes_serialized_witness :
    inFlight [Ev.start true Src.refreshReq] ≤ 1 := by
  have h1 := Step.spawn true (NewPoller 5) (.refreshing true) rfl
  have h2 := Step.dispatch_op true
    (⟨5, 5, false, .idle, .waiting, [.refreshing true], []⟩ : Poller) [] [] true rfl rfl
  exact poller_refreshes_serialized 5 _
    (Relation.ReflTransGen.tail (Relation.ReflTransGen.tail Relation.ReflTransGen.refl
      h1) h2)
    [Ev.start true Src.refreshReq] ⟨[], rfl⟩

/-! ### Claim C3 -/

theorem exited_quiet_step {env : Bool} {s s2 : Poller} (h : Step env s s2)
    (hd : s.disp = .exited) :
    s2.disp = .exited ∧ ∃ ext, s2.trace = s.trace ++ ext ∧
      ∀ f src, Ev.start f src ∉ ext := by
  cases h with
  | dispatch_op l₁ l₂ f hd2 hops => rw [hd2] at hd; exact DState.noConfusion hd
  | dispatch_upd l₁ l₂ p hd2 hops => rw [hd2] at hd; exact DState.noConfusion hd
  | dispatch_tick hd2 ht => rw [hd2] at hd; exact DState.noConfusion hd
  | dispatch_done hd2 hdone => rw [hd2] at hd; exact DState.noConfusion hd
  | dispatch_finish f hd2 => rw [hd2] at hd; exact DState.noConfusion hd
  | tick_fire ht =>
    exact ⟨hd, [.tickFire s.tick], rfl, by intro f src hm; simp at hm⟩
  | tick_done ht hdone => exact ⟨hd, [], by simp, by intro f src hm; simp at hm⟩
  | tick_send_done ht hdone => exact ⟨hd, [], by simp, by intro f src hm; simp at hm⟩
  | op_refresh_done l₁ l₂ f hdone hops =>
    exact ⟨hd, [], by simp, by intro f src hm; simp at hm⟩
  | op_upd_write l₁ l₂ p hops => exact ⟨hd, [], by simp, by intro f src hm; simp at hm⟩
  | op_upd_done l₁ l₂ p hdone hops =>
    exact ⟨hd, [], by simp, by intro f src hm; simp at hm⟩
  | op_upd_reset l₁ l₂ p hops hpos =>
    exact ⟨hd, [.reset s.period], rfl, by intro f src hm; simp at hm⟩
  | op_upd_reset_panic l₁ l₂ p hops hnp =>
    exact ⟨hd, [.panicked], rfl, by intro f src hm; simp at hm⟩
  | op_close l₁ l₂ hops =>
    exact ⟨hd, [.closed], rfl, by intro f src hm; simp at hm⟩
  | spawn k he => exact ⟨hd, [], by simp, by intro f src hm; simp at hm⟩

theorem exited_quiet {env : Bool} {s s2 : Poller}
    (h : Relation.ReflTransGen (Step env) s s2) (hd : s.disp = .exited) :
    s2.disp = .exited ∧ ∃ ext, s2.trace = s.trace ++ ext ∧
      ∀ f src, Ev.start f src ∉ ext := by
  induction h with
  | refl => exact ⟨hd, [], by simp, by intro f src hm; simp at hm⟩
  | tail h1 hstep ih =>
    obtain ⟨hd2, ext, htr, hns⟩ := ih
    obtain ⟨hd3, ext2, htr2, hns2⟩ := exited_quiet_step hstep hd2
    refine ⟨hd3, ext ++ ext2, by rw [htr2, htr, List.append_assoc], ?_⟩
    intro f src hm
    rcases List.mem_append.mp hm with hm | hm
    · exact hns f src hm
    · exact hns2 f src hm

/-- Formalisation of claim C3 exactly as stated: once Close has executed
(the closed event is in the trace), the refresh callback is never started
again. -/
def CloseQuiescenceClaim : Prop :=
  ∀ p s, Reach true (NewPoller p) s →
    ∀ pre suf, s.trace = pre ++ .closed :: suf → ∀ f src, Ev.start f src ∉ suf

/-- C3 counterexample: the claim is false as stated.  After Close returns,
the dispatch loop may not yet have observed the closed done channel; its
select then has both the receive and the done branch ready and Go may pick
either, so a Refresh issued strictly after Close can still rendezvous and
run the callback once more.  The four-step run below exhibits exactly
that: Close completes, then a fresh Refresh(true) is accepted. -/
theorem close_quiescence_claim_false : ¬ CloseQuiescenceClaim := by
  intro hc
  have h1 := Step.spawn true (NewPoller 1) .closing rfl
  have h2 := Step.op_close true
    (⟨1, 1, false, .idle, .waiting, [.closing], []⟩ : Poller) [] [] rfl
  have h3 := Step.spawn true
    (⟨1, 1, true, .idle, .waiting, [], [.closed]⟩ : Poller) (.refreshing true) rfl
  have h4 := Step.dispatch_op true
    (⟨1, 1, true, .idle, .waiting, [.refreshing true], [.closed]⟩ : Poller)
    [] [] true rfl rfl
  exact hc 1 _
    (Relation.ReflTransGen.tail (Relation.ReflTransGen.tail
      (Relation.ReflTransGen.tail (Relation.ReflTransGen.tail
        Relation.ReflTransGen.refl h1) h2) h3) h4)
    [] [Ev.start true Src.refreshReq] rfl true .refreshReq
    (List.mem_cons_self _ _)

/-- C3 amended: after Close, Refresh and UpdatePeriod never block — once
done is closed each pending call always has an immediately enabled step
that completes it through the done branch without invoking the callback
(and the UpdatePeriod stages before and after its select are always
enabled) — but a call racing with loop shutdown may still deliver one
callback invocation; only once the dispatch loop has observed the close
and exited is the callback never started again. -/
theorem poller_close_spec (s : Poller) :
    (∀ l₁ l₂ f, s.done = true → s.ops = l₁ ++ .refreshing f :: l₂ →
      ∃ s2, Step false s s2 ∧ s2.ops = l₁ ++ l₂ ∧ s2.trace = s.trace) ∧
    (∀ l₁ l₂ p, s.done = true → s.ops = l₁ ++ .updSel p :: l₂ →
      ∃ s2, Step false s s2 ∧ s2.ops = l₁ ++ l₂ ∧ s2.trace = s.trace) ∧
    (∀ l₁ l₂ p, s.ops = l₁ ++ .updWrite p :: l₂ →
      ∃ s2, Step false s s2 ∧ s2.ops = l₁ ++ .updSel p :: l₂ ∧
        s2.trace = s.trace) ∧
    (∀ l₁ l₂ p, s.ops = l₁ ++ .updReset p :: l₂ →
      ∃ s2, Step false s s2 ∧ s2.ops = l₁ ++ l₂ ∧
        ∀ f src, Ev.start f src ∉ s2.trace ∨ Ev.start f src ∈ s.trace) ∧
    (∀ s2, s.disp = .exited → Reach true s s2 →
      ∃ ext, s2.trace = s.trace ++ ext ∧ ∀ f src, Ev.start f src ∉ ext) := by
  refine ⟨?_, ?_, ?_, ?_, ?_⟩
  · intro l₁ l₂ f hdone hops
    exact ⟨_, Step.op_refresh_done false s l₁ l₂ f hdone hops, rfl, rfl⟩
  · intro l₁ l₂ p hdone hops
    exact ⟨_, Step.op_upd_done false s l₁ l₂ p hdone hops, rfl, rfl⟩
  · intro l₁ l₂ p hops
    exact ⟨_, Step.op_upd_write false s l₁ l₂ p hops, rfl, rfl⟩
  · intro l₁ l₂ p hops
    by_cases hpos : 0 < s.period
    · refine ⟨_, Step.op_upd_reset false s l₁ l₂ p hops hpos, rfl, ?_⟩
      intro f src
      by_cases hm : Ev.start f src ∈ s.trace
      · exact Or.inr hm
      · refine Or.inl ?_
        intro hmem
        rcases List.mem_append.mp hmem with h | h
        · exact hm h
        · simp at h
    · refine ⟨_, Step.op_upd_reset_panic false s l₁ l₂ p hops (by omega), rfl, ?_⟩
      intro f src
      by_cases hm : Ev.start f src ∈ s.trace
      · exact Or.inr hm
      · refine Or.inl ?_
        intro hmem
        rcases List.mem_append.mp hmem with h | h
        · exact hm h
        · simp at h
  · intro s2 hd h
    exact (exited_quiet h hd).2

/-! ### Event counters and small list facts for the scenario claims -/

/-- True on a delivered refresh that rendezvoused with an UpdatePeriod. -/
def isUpdStart : Ev → Bool
  | .start _ .update => true
  | _ => false

/-- True on ticker reset events. -/
def isResetEv : Ev → Bool
  | .reset _ => true
  | _ => false

/-- True on a delivered refresh that rendezvoused with a Refresh call. -/
def isReqStart : Ev → Bool
  | .start _ .refreshReq => true
  | _ => false

/-- True on a delivered refresh that rendezvoused with the tick loop. -/
def isTickStart : Ev → Bool
  | .start _ .tick => true
  | _ => false

/-- True on ticker fires. -/
def isTickFire : Ev → Bool
  | .tickFire _ => true
  | _ => false

/-- Deliveries from UpdatePeriod in a trace. -/
def cU (tr : List Ev) : Nat := tr.countP isUpdStart

/-- Ticker resets in a trace. -/
def cR (tr : List Ev) : Nat := tr.countP isResetEv

/-- Deliveries from Refresh calls in a trace. -/
def cRQ (tr : List Ev) : Nat := tr.countP isReqStart

/-- Ticked deliveries in a trace. -/
def cTS (tr : List Ev) : Nat := tr.countP isTickStart

/-- Ticker fires in a trace. -/
def cTF (tr : List Ev) : Nat := tr.countP isTickFire

theorem countP_snoc (p : Ev → Bool) (tr : List Ev) (e : Ev) :
    List.countP p (tr ++ [e]) = List.countP p tr + (if p e then 1 else 0) := by
  rw [List.countP_append]
  simp [List.countP_cons]

theorem ops_nil_no_mid {k : OpKind} {l₁ l₂ : List OpKind}
    (h : ([] : List OpKind) = l₁ ++ k :: l₂) : False := by
  cases l₁ <;> simp at h

theorem ops_single_mid {k k2 : OpKind} {l₁ l₂ : List OpKind}
    (h : [k] = l₁ ++ k2 :: l₂) : l₁ = [] ∧ k2 = k ∧ l₂ = [] := by
  cases l₁ with
  | nil =>
    rw [List.nil_append] at h
    injection h with h1 h2
    exact ⟨rfl, h1.symm, h2.symm⟩
  | cons a l =>
    rw [List.cons_append] at h
    injection h with h1 h2
    exact (ops_nil_no_mid h2).elim

/-! ### Ticked deliveries never outrun ticker fires -/

/-- Ticker-count invariant: the tick loop forwards each fire at most once,
so ticked deliveries never exceed fires — with one fire of slack buffered
while the loop sits at its inner send. -/
def TickInv (s : Poller) : Prop :=
  (match s.ticker with
   | .sending => cTS s.trace + 1 ≤ cTF s.trace
   | _ => cTS s.trace ≤ cTF s.trace) ∧
  ∀ pre, IsPre pre s.trace → cTS pre ≤ cTF pre

theorem tick_counts_snoc_neutral {tr : List Ev} {e : Ev}
    (hs : isTickStart e = false) (hf : isTickFire e = false)
    (hpre : ∀ pre, IsPre pre tr → cTS pre ≤ cTF pre) :
    ∀ pre, IsPre pre (tr ++ [e]) → cTS pre ≤ cTF pre := by
  intro pre hp
  rcases isPre_snoc_cases hp with hp | rfl
  · exact hpre pre hp
  · have := hpre tr ⟨[], by simp⟩
    simp only [cTS, cTF, countP_snoc, hs, hf] at this ⊢
    omega

theorem tickInv_step {env : Bool} {s s2 : Poller}
    (h : Step env s s2) (hi : TickInv s) : TickInv s2 := by
  obtain ⟨hst, hpre⟩ := hi
  cases h with
  | dispatch_op l₁ l₂ f hd hops =>
    refine ⟨?_, tick_counts_snoc_neutral rfl rfl hpre⟩
    simp only [cTS, cTF, countP_snoc, isTickStart, isTickFire]
    cases hts : s.ticker <;> rw [hts] at hst <;> simpa using hst
  | dispatch_upd l₁ l₂ p hd hops =>
    refine ⟨?_, tick_counts_snoc_neutral rfl rfl hpre⟩
    simp only [cTS, cTF, countP_snoc, isTickStart, isTickFire]
    cases hts : s.ticker <;> rw [hts] at hst <;> simpa using hst
  | dispatch_tick hd ht =>
    have hst2 : List.countP isTickStart s.trace + 1 ≤ List.countP isTickFire s.trace := by
      rw [ht] at hst
      exact hst
    constructor
    · show List.countP isTickStart (s.trace ++ [.start false .tick]) ≤
        List.countP isTickFire (s.trace ++ [.start false .tick])
      simp [countP_snoc, isTickStart, isTickFire]
      omega
    · intro pre hp
      rcases isPre_snoc_cases hp with hp | rfl
      · exact hpre pre hp
      · show List.countP isTickStart (s.trace ++ [.start false .tick]) ≤
          List.countP isTickFire (s.trace ++ [.start false .tick])
        simp [countP_snoc, isTickStart, isTickFire]
        omega
  | dispatch_done hd hdone => exact ⟨hst, hpre⟩
  | dispatch_finish f hd =>
    refine ⟨?_, tick_counts_snoc_neutral rfl rfl hpre⟩
    simp only [cTS, cTF, countP_snoc, isTickStart, isTickFire]
    cases hts : s.ticker <;> rw [hts] at hst <;> simpa using hst
  | tick_fire ht =>
    have hst2 : List.countP isTickStart s.trace ≤ List.countP isTickFire s.trace := by
      rw [ht] at hst
      exact hst
    constructor
    · show List.countP isTickStart (s.trace ++ [.tickFire s.tick]) + 1 ≤
        List.countP isTickFire (s.trace ++ [.tickFire s.tick])
      simp [countP_snoc, isTickStart, isTickFire]
      omega
    · intro pre hp
      rcases isPre_snoc_cases hp with hp | rfl
      · exact hpre pre hp
      · show List.countP isTickStart (s.trace ++ [.tickFire s.tick]) ≤
          List.countP isTickFire (s.trace ++ [.tickFire s.tick])
        simp [countP_snoc, isTickStart, isTickFire]
        omega
  | tick_done ht hdone =>
    rw [ht] at hst
    exact ⟨hst, hpre⟩
  | tick_send_done ht hdone =>
    have hst2 : List.countP isTickStart s.trace + 1 ≤ List.countP isTickFire s.trace := by
      rw [ht] at hst
      exact hst
    refine ⟨?_, hpre⟩
    show List.countP isTickStart s.trace ≤ List.countP isTickFire s.trace
    omega
  | op_refresh_done l₁ l₂ f hdone hops => exact ⟨hst, hpre⟩
  | op_upd_write l₁ l₂ p hops => exact ⟨hst, hpre⟩
  | op_upd_done l₁ l₂ p hdone hops => exact ⟨hst, hpre⟩
  | op_upd_reset l₁ l₂ p hops hpos =>
    refine ⟨?_, tick_counts_snoc_neutral rfl rfl hpre⟩
    simp only [cTS, cTF, countP_snoc, isTickStart, isTickFire]
    cases hts : s.ticker <;> rw [hts] at hst <;> simpa using hst
  | op_upd_reset_panic l₁ l₂ p hops hnp =>
    refine ⟨?_, tick_counts_snoc_neutral rfl rfl hpre⟩
    simp only [cTS, cTF, countP_snoc, isTickStart, isTickFire]
    cases hts : s.ticker <;> rw [hts] at hst <;> simpa using hst
  | op_close l₁ l₂ hops =>
    refine ⟨?_, tick_counts_snoc_neutral rfl rfl hpre⟩
    simp only [cTS, cTF, countP_snoc, isTickStart, isTickFire]
    cases hts : s.ticker <;> rw [hts] at hst <;> simpa using hst
  | spawn k he => exact ⟨hst, hpre⟩

theorem cRQ_snoc_neutral (e : Ev) (he : isReqStart e = false) (tr : List Ev) :
    cRQ (tr ++ [e]) = cRQ tr := by
  simp [cRQ, countP_snoc, he]

theorem forced_fact_snoc {tr : List Ev} {e : Ev}
    (hne : ∀ f, ¬e = Ev.start f .refreshReq)
    (hfr : ∀ f, Ev.start f .refreshReq ∈ tr → f = true) :
    ∀ f, Ev.start f .refreshReq ∈ tr ++ [e] → f = true := by
  intro f hm
  rcases List.mem_append.mp hm with hm | hm
  · exact hfr f hm
  · simp only [List.mem_singleton] at hm
    exact (hne f hm.symm).elim

/-- TickInv carries along any run. -/
theorem tickInv_reach {env : Bool} {s0 s : Poller}
    (h : Relation.ReflTransGen (Step env) s0 s) (h0 : TickInv s0) : TickInv s := by
  induction h with
  | refl => exact h0
  | tail h1 hstep ih => exact tickInv_step hstep ih

/-- The state right after PolledSensor.Sync has called Refresh(true) on a
freshly created running Poller: the forced request is pending, both loops
are live. -/
def syncScenario (p : Int) : Poller := { NewPoller p with ops := [.refreshing true] }

/-- Scenario invariant for Sync's forced refresh: the request is pending
and undelivered, or consumed and delivered exactly once; and every
delivery that rendezvoused with a Refresh call carried forced = true. -/
def SyncInv (s : Poller) : Prop :=
  s.done = false ∧
  ((s.ops = [.refreshing true] ∧ cRQ s.trace = 0) ∨ (s.ops = [] ∧ cRQ s.trace = 1)) ∧
  (∀ f, Ev.start f .refreshReq ∈ s.trace → f = true)

theorem syncInv_step {s s2 : Poller} (h : Step false s s2) (hi : SyncInv s) :
    SyncInv s2 := by
  obtain ⟨hdone, hph, hfr⟩ := hi
  cases h with
  | dispatch_op l₁ l₂ f hd hops =>
    rcases hph with ⟨ho, hc⟩ | ⟨ho, hc⟩
    · rw [ho] at hops
      obtain ⟨h1, h2, h3⟩ := ops_single_mid hops
      injection h2 with hf
      subst hf
      subst h1
      subst h3
      refine ⟨hdone, Or.inr ⟨by simp, ?_⟩, ?_⟩
      · have hc2 : List.countP isReqStart s.trace = 0 := hc
        show List.countP isReqStart (s.trace ++ [Ev.start true Src.refreshReq]) = 1
        rw [countP_snoc, if_pos (by rfl : isReqStart (Ev.start true Src.refreshReq) = true),
          hc2]
      · intro f2 hm
        rcases List.mem_append.mp hm with hm | hm
        · exact hfr f2 hm
        · simpa using hm
    · rw [ho] at hops
      exact (ops_nil_no_mid hops).elim
  | dispatch_upd l₁ l₂ p hd hops =>
    rcases hph with ⟨ho, hc⟩ | ⟨ho, hc⟩
    · rw [ho] at hops
      have h2 := (ops_single_mid hops).2.1
      simp at h2
    · rw [ho] at hops
      exact (ops_nil_no_mid hops).elim
  | dispatch_tick hd ht =>
    refine ⟨hdone, ?_, forced_fact_snoc (by intro f; simp) hfr⟩
    rcases hph with ⟨ho, hc⟩ | ⟨ho, hc⟩
    · exact Or.inl ⟨ho, by rw [cRQ_snoc_neutral (Ev.start false Src.tick) rfl]; exact hc⟩
    · exact Or.inr ⟨ho, by rw [cRQ_snoc_neutral (Ev.start false Src.tick) rfl]; exact hc⟩
  | dispatch_done hd hdone2 =>
    rw [hdone] at hdone2
    exact Bool.noConfusion hdone2
  | dispatch_finish f hd =>
    refine ⟨hdone, ?_, forced_fact_snoc (by intro f2; simp) hfr⟩
    rcases hph with ⟨ho, hc⟩ | ⟨ho, hc⟩
    · exact Or.inl ⟨ho, by rw [cRQ_snoc_neutral Ev.finish rfl]; exact hc⟩
    · exact Or.inr ⟨ho, by rw [cRQ_snoc_neutral Ev.finish rfl]; exact hc⟩
  | tick_fire ht =>
    refine ⟨hdone, ?_, forced_fact_snoc (by intro f2; simp) hfr⟩
    rcases hph with ⟨ho, hc⟩ | ⟨ho, hc⟩
    · exact Or.inl ⟨ho, by rw [cRQ_snoc_neutral (Ev.tickFire s.tick) rfl]; exact hc⟩
    · exact Or.inr ⟨ho, by rw [cRQ_snoc_neutral (Ev.tickFire s.tick) rfl]; exact hc⟩
  | tick_done ht hdone2 =>
    rw [hdone] at hdone2
    exact Bool.noConfusion hdone2
  | tick_send_done ht hdone2 =>
    rw [hdone] at hdone2
    exact Bool.noConfusion hdone2
  | op_refresh_done l₁ l₂ f hdone2 hops =>
    rw [hdone] at hdone2
    exact Bool.noConfusion hdone2
  | op_upd_write l₁ l₂ p hops =>
    rcases hph with ⟨ho, hc⟩ | ⟨ho, hc⟩
    · rw [ho] at hops
      have h2 := (ops_single_mid hops).2.1
      simp at h2
    · rw [ho] at hops
      exact (ops_nil_no_mid hops).elim
  | op_upd_done l₁ l₂ p hdone2 hops =>
    rw [hdone] at hdone2
    exact Bool.noConfusion hdone2
  | op_upd_reset l₁ l₂ p hops hpos =>
    rcases hph with ⟨ho, hc⟩ | ⟨ho, hc⟩
    · rw [ho] at hops
      have h2 := (ops_single_mid hops).2.1
      simp at h2
    · rw [ho] at hops
      exact (ops_nil_no_mid hops).elim
  | op_upd_reset_panic l₁ l₂ p hops hnp =>
    rcases hph with ⟨ho, hc⟩ | ⟨ho, hc⟩
    · rw [ho] at hops
      have h2 := (ops_single_mid hops).2.1
      simp at h2
    · rw [ho] at hops
      exact (ops_nil_no_mid hops).elim
  | op_close l₁ l₂ hops =>
    rcases hph with ⟨ho, hc⟩ | ⟨ho, hc⟩
    · rw [ho] at hops
      have h2 := (ops_single_mid hops).2.1
      simp at h2
    · rw [ho] at hops
      exact (ops_nil_no_mid hops).elim
  | spawn k he => exact Bool.noConfusion he

theorem syncInv_reach {p : Int} {s : Poller}
    (h : Relation.ReflTransGen (Step false) (syncScenario p) s) : SyncInv s := by
  induction h with
  | refl =>
    refine ⟨rfl, Or.inl ⟨rfl, rfl⟩, ?_⟩
    intro f hm
    simp [syncScenario, NewPoller] at hm
  | tail h1 hstep ih => exact syncInv_step hstep ih

/-- C2: Sync rebinds the handle and issues, in source order, one forced
refresh request, a subscription on topic/rqd, exactly one publish of the
then-current period on topic/poll_period, and a subscription on
topic/rqd/poll_period.  In the Poller run that Sync's Refresh(true)
starts, the forced request is delivered exactly once and every delivery
from it is forced; and ticked deliveries never outrun ticker fires in any
prefix, so a tick that fires only after the forced delivery is also
delivered after it. -/
theorem polledSensor_sync_spec (sen : PolledSensor) (ps : PubSubRef) (p : Int)
    (s : Poller) (h : Relation.ReflTransGen (Step false) (syncScenario p) s) :
    PolledSensor.Sync (some sen) ps =
      .ok (some { sen with ps := some ps },
        [.refresh true,
         .subscribe (sen.topic ++ "/rqd") .forceRefresh,
         .publish (sen.topic ++ "/poll_period") (.dur sen.poller.period),
         .subscribe (sen.topic ++ "/rqd/poll_period") .setPollPeriod]) ∧
    List.filter PSAction.isPublish
        [PSAction.refresh true,
         .subscribe (sen.topic ++ "/rqd") .forceRefresh,
         .publish (sen.topic ++ "/poll_period") (.dur sen.poller.period),
         .subscribe (sen.topic ++ "/rqd/poll_period") .setPollPeriod] =
      [.publish (sen.topic ++ "/poll_period") (.dur sen.poller.period)] ∧
    (s.ops = [] →
      cRQ s.trace = 1 ∧ ∀ f, Ev.start f .refreshReq ∈ s.trace → f = true) ∧
    (∀ pre, IsPre pre s.trace → cTS pre ≤ cTF pre) := by
  refine ⟨rfl, rfl, ?_, ?_⟩
  · intro hops
    have hi := syncInv_reach h
    rcases hi.2.1 with ⟨ho, hc⟩ | ⟨ho, hc⟩
    · rw [hops] at ho
      exact absurd ho (by simp)
    · exact ⟨hc, hi.2.2⟩
  · have hi : TickInv s := by
      refine tickInv_reach h ⟨?_, ?_⟩
      · show cTS ([] : List Ev) ≤ cTF []
        exact le_rfl
      · intro pre hp
        obtain ⟨t, ht⟩ := hp
        have hpre : pre = [] := (List.append_eq_nil.mp ht).1
        subst hpre
        exact le_rfl
    exact hi.2

/-- Witness for C2 on the concrete one-step run where the dispatch loop
accepts Sync's forced request: it is delivered exactly once and forced. -/
theorem polledSensor_sync_spec_witness :
    cRQ [Ev.start true Src.refreshReq] = 1 ∧
    (∀ f, Ev.start f .refreshReq ∈ [Ev.start true Src.refreshReq] → f = true) :=
  (polledSensor_sync_spec ⟨"/cpu", ⟨60000000000, false⟩, some .stub⟩ .stub 7 _
      (Relation.ReflTransGen.tail Relation.ReflTransGen.refl
        (Step.dispatch_op false
          (⟨7, 7, false, .idle, .waiting, [.refreshing true], []⟩ : Poller)
          [] [] true rfl rfl))).2.2.1 rfl

theorem cU_snoc (tr : List Ev) (e : Ev) :
    cU (tr ++ [e]) = cU tr + (if isUpdStart e then 1 else 0) :=
  countP_snoc isUpdStart tr e

theorem cR_snoc (tr : List Ev) (e : Ev) :
    cR (tr ++ [e]) = cR tr + (if isResetEv e then 1 else 0) :=
  countP_snoc isResetEv tr e

theorem cU_snoc_neutral (e : Ev) (he : isUpdStart e = false) (tr : List Ev) :
    cU (tr ++ [e]) = cU tr := by
  simp [cU, countP_snoc, he]

theorem cR_snoc_neutral (e : Ev) (he : isResetEv e = false) (tr : List Ev) :
    cR (tr ++ [e]) = cR tr := by
  simp [cR, countP_snoc, he]

theorem upd_fact_snoc {tr : List Ev} {e : Ev}
    (hne : ∀ f, ¬e = Ev.start f .update)
    (h : ∀ f, Ev.start f .update ∈ tr → f = false) :
    ∀ f, Ev.start f .update ∈ tr ++ [e] → f = false := by
  intro f hm
  rcases List.mem_append.mp hm with hm | hm
  · exact h f hm
  · simp only [List.mem_singleton] at hm
    exact (hne f hm.symm).elim

theorem reset_fact_snoc {tr : List Ev} {e : Ev} {p2 : Int}
    (hne : ∀ q, ¬e = Ev.reset q)
    (h : ∀ q, Ev.reset q ∈ tr → q = p2) :
    ∀ q, Ev.reset q ∈ tr ++ [e] → q = p2 := by
  intro q hm
  rcases List.mem_append.mp hm with hm | hm
  · exact h q hm
  · simp only [List.mem_singleton] at hm
    exact (hne q hm.symm).elim

theorem prefix_cond_snoc {tr : List Ev} {e : Ev}
    (h : ∀ pre, IsPre pre tr → cR pre ≤ cU pre)
    (hfull : cR (tr ++ [e]) ≤ cU (tr ++ [e])) :
    ∀ pre, IsPre pre (tr ++ [e]) → cR pre ≤ cU pre := by
  intro pre hp
  rcases isPre_snoc_cases hp with hp | rfl
  · exact h pre hp
  · exact hfull

/-- The state right after UpdatePeriod(p2) has been called on a running
Poller created with period p1: the caller is about to write the period. -/
def updScenario (p1 p2 : Int) : Poller := { NewPoller p1 with ops := [.updWrite p2] }

/-- Where a single UpdatePeriod(p2) call can be, with the period, ticker
interval and event counts it leaves at each stage: before the period
write, at the select, between accepted send and ticker reset, and done. -/
def UpdPhase (p1 p2 : Int) (ops : List OpKind) (period tick : Int)
    (u r : Nat) : Prop :=
  (ops = [.updWrite p2] ∧ period = p1 ∧ tick = p1 ∧ u = 0 ∧ r = 0) ∨
  (ops = [.updSel p2] ∧ period = p2 ∧ tick = p1 ∧ u = 0 ∧ r = 0) ∨
  (ops = [.updReset p2] ∧ period = p2 ∧ tick = p1 ∧ u = 1 ∧ r = 0) ∨
  (ops = [] ∧ period = p2 ∧ tick = p2 ∧ u = 1 ∧ r = 1)

/-- Scenario invariant for one UpdatePeriod(p2) call on a running
Poller. -/
def UpdInv (p1 p2 : Int) (s : Poller) : Prop :=
  s.done = false ∧
  UpdPhase p1 p2 s.ops s.period s.tick (cU s.trace) (cR s.trace) ∧
  (∀ f, Ev.start f .update ∈ s.trace → f = false) ∧
  (∀ q, Ev.reset q ∈ s.trace → q = p2) ∧
  (∀ pre, IsPre pre s.trace → cR pre ≤ cU pre)

theorem updPhase_snoc_neutral {p1 p2 : Int} {ops : List OpKind}
    {period tick : Int} {tr : List Ev} (e : Ev)
    (hu : isUpdStart e = false) (hr : isResetEv e = false)
    (hph : UpdPhase p1 p2 ops period tick (cU tr) (cR tr)) :
    UpdPhase p1 p2 ops period tick (cU (tr ++ [e])) (cR (tr ++ [e])) := by
  rw [cU_snoc_neutral e hu, cR_snoc_neutral e hr]
  exact hph

theorem updInv_step {p1 p2 : Int} {s s2 : Poller} (hpos : 0 < p2)
    (h : Step false s s2) (hi : UpdInv p1 p2 s) : UpdInv p1 p2 s2 := by
  obtain ⟨hdone, hph, huf, hrf, hpre⟩ := hi
  cases h with
  | dispatch_op l₁ l₂ f hd hops =>
    rcases hph with ⟨ho, -⟩ | ⟨ho, -⟩ | ⟨ho, -⟩ | ⟨ho, -⟩ <;> rw [ho] at hops
    · have h2 := (ops_single_mid hops).2.1
      simp at h2
    · have h2 := (ops_single_mid hops).2.1
      simp at h2
    · have h2 := (ops_single_mid hops).2.1
      simp at h2
    · exact (ops_nil_no_mid hops).elim
  | dispatch_upd l₁ l₂ p hd hops =>
    rcases hph with ⟨ho, -⟩ | ⟨ho, hper, htk, hcu, hcr⟩ | ⟨ho, -⟩ | ⟨ho, -⟩ <;>
      rw [ho] at hops
    · have h2 := (ops_single_mid hops).2.1
      simp at h2
    · obtain ⟨hl1, hk, hl2⟩ := ops_single_mid hops
      injection hk with hpp
      subst hpp
      subst hl1
      subst hl2
      refine ⟨hdone, ?_, ?_, ?_, ?_⟩
      · refine Or.inr (Or.inr (Or.inl ⟨by simp, hper, htk, ?_, ?_⟩))
        · rw [cU_snoc, if_pos (by rfl : isUpdStart (Ev.start false Src.update) = true),
            hcu]
        · rw [cR_snoc_neutral (Ev.start false Src.update) rfl, hcr]
      · intro f hm
        rcases List.mem_append.mp hm with hm | hm
        · exact huf f hm
        · simpa using hm
      · exact reset_fact_snoc (by intro q; simp) hrf
      · refine prefix_cond_snoc hpre ?_
        rw [cU_snoc, if_pos (by rfl : isUpdStart (Ev.start false Src.update) = true),
          hcu, cR_snoc_neutral (Ev.start false Src.update) rfl, hcr]
        omega
    · have h2 := (ops_single_mid hops).2.1
      simp at h2
    · exact (ops_nil_no_mid hops).elim
  | dispatch_tick hd ht =>
    refine ⟨hdone, updPhase_snoc_neutral (Ev.start false Src.tick) rfl rfl hph,
      upd_fact_snoc (by intro f; simp) huf,
      reset_fact_snoc (by intro q; simp) hrf, prefix_cond_snoc hpre ?_⟩
    rw [cU_snoc_neutral (Ev.start false Src.tick) rfl,
      cR_snoc_neutral (Ev.start false Src.tick) rfl]
    exact hpre s.trace ⟨[], by simp⟩
  | dispatch_done hd hdone2 =>
    rw [hdone] at hdone2
    exact Bool.noConfusion hdone2
  | dispatch_finish f hd =>
    refine ⟨hdone, updPhase_snoc_neutral Ev.finish rfl rfl hph,
      upd_fact_snoc (by intro f2; simp) huf,
      reset_fact_snoc (by intro q; simp) hrf, prefix_cond_snoc hpre ?_⟩
    rw [cU_snoc_neutral Ev.finish rfl, cR_snoc_neutral Ev.finish rfl]
    exact hpre s.trace ⟨[], by simp⟩
  | tick_fire ht =>
    refine ⟨hdone, updPhase_snoc_neutral (Ev.tickFire s.tick) rfl rfl hph,
      upd_fact_snoc (by intro f2; simp) huf,
      reset_fact_snoc (by intro q; simp) hrf, prefix_cond_snoc hpre ?_⟩
    rw [cU_snoc_neutral (Ev.tickFire s.tick) rfl,
      cR_snoc_neutral (Ev.tickFire s.tick) rfl]
    exact hpre s.trace ⟨[], by simp⟩
  | tick_done ht hdone2 =>
    rw [hdone] at hdone2
    exact Bool.noConfusion hdone2
  | tick_send_done ht hdone2 =>
    rw [hdone] at hdone2
    exact Bool.noConfusion hdone2
  | op_refresh_done l₁ l₂ f hdone2 hops =>
    rw [hdone] at hdone2
    exact Bool.noConfusion hdone2
  | op_upd_write l₁ l₂ p hops =>
    rcases hph with ⟨ho, hper, htk, hcu, hcr⟩ | ⟨ho, -⟩ | ⟨ho, -⟩ | ⟨ho, -⟩ <;>
      rw [ho] at hops
    · obtain ⟨hl1, hk, hl2⟩ := ops_single_mid hops
      injection hk with hpp
      subst hpp
      subst hl1
      subst hl2
      exact ⟨hdone, Or.inr (Or.inl ⟨by simp, rfl, htk, hcu, hcr⟩), huf, hrf, hpre⟩
    · have h2 := (ops_single_mid hops).2.1
      simp at h2
    · have h2 := (ops_single_mid hops).2.1
      simp at h2
    · exact (ops_nil_no_mid hops).elim
  | op_upd_done l₁ l₂ p hdone2 hops =>
    rw [hdone] at hdone2
    exact Bool.noConfusion hdone2
  | op_upd_reset l₁ l₂ p hops hpos2 =>
    rcases hph with ⟨ho, -⟩ | ⟨ho, -⟩ | ⟨ho, hper, htk, hcu, hcr⟩ | ⟨ho, -⟩ <;>
      rw [ho] at hops
    · have h2 := (ops_single_mid hops).2.1
      simp at h2
    · have h2 := (ops_single_mid hops).2.1
      simp at h2
    · obtain ⟨hl1, hk, hl2⟩ := ops_single_mid hops
      injection hk with hpp
      subst hpp
      subst hl1
      subst hl2
      refine ⟨hdone, ?_, ?_, ?_, ?_⟩
      · refine Or.inr (Or.inr (Or.inr ⟨by simp, hper, hper, ?_, ?_⟩))
        · rw [cU_snoc_neutral (Ev.reset s.period) rfl, hcu]
        · rw [cR_snoc, if_pos (by rfl : isResetEv (Ev.reset s.period) = true), hcr]
      · exact upd_fact_snoc (by intro f2; simp) huf
      · intro q hm
        rcases List.mem_append.mp hm with hm | hm
        · exact hrf q hm
        · simp only [List.mem_singleton] at hm
          injection hm with hq
          rw [hq, hper]
      · refine prefix_cond_snoc hpre ?_
        rw [cU_snoc_neutral (Ev.reset s.period) rfl, hcu,
          cR_snoc, if_pos (by rfl : isResetEv (Ev.reset s.period) = true), hcr]
    · exact (ops_nil_no_mid hops).elim
  | op_upd_reset_panic l₁ l₂ p hops hnp =>
    rcases hph with ⟨ho, -⟩ | ⟨ho, -⟩ | ⟨ho, hper, -⟩ | ⟨ho, -⟩ <;>
      rw [ho] at hops
    · have h2 := (ops_single_mid hops).2.1
      simp at h2
    · have h2 := (ops_single_mid hops).2.1
      simp at h2
    · rw [hper] at hnp
      omega
    · exact (ops_nil_no_mid hops).elim
  | op_close l₁ l₂ hops =>
    rcases hph with ⟨ho, -⟩ | ⟨ho, -⟩ | ⟨ho, -⟩ | ⟨ho, -⟩ <;> rw [ho] at hops
    · have h2 := (ops_single_mid hops).2.1
      simp at h2
    · have h2 := (ops_single_mid hops).2.1
      simp at h2
    · have h2 := (ops_single_mid hops).2.1
      simp at h2
    · exact (ops_nil_no_mid hops).elim
  | spawn k he => exact Bool.noConfusion he

theorem updInv_reach {p1 p2 : Int} {s : Poller} (hpos : 0 < p2)
    (h : Relation.ReflTransGen (Step false) (updScenario p1 p2) s) :
    UpdInv p1 p2 s := by
  induction h with
  | refl =>
    refine ⟨rfl, Or.inl ⟨rfl, rfl, rfl, rfl, rfl⟩, ?_, ?_, ?_⟩
    · intro f hm
      simp [updScenario, NewPoller] at hm
    · intro q hm
      simp [updScenario, NewPoller] at hm
    · intro pre hp
      obtain ⟨t, ht⟩ := hp
      have hpre : pre = [] := (List.append_eq_nil.mp ht).1
      subst hpre
      exact le_rfl
  | tail h1 hstep ih => exact updInv_step hpos hstep ih

/-- After the UpdatePeriod call completes, the ticker interval stays put
and every later fire carries it. -/
theorem ops_empty_quiet {s s2 : Poller}
    (h : Relation.ReflTransGen (Step false) s s2) (hops : s.ops = []) :
    s2.ops = [] ∧ s2.tick = s.tick ∧
    ∀ q, Ev.tickFire q ∈ s2.trace → Ev.tickFire q ∈ s.trace ∨ q = s.tick := by
  induction h with
  | refl => exact ⟨hops, rfl, fun q hm => Or.inl hm⟩
  | tail h1 hstep ih =>
    obtain ⟨ho, htk, hfm⟩ := ih
    cases hstep with
    | dispatch_op l₁ l₂ f hd hops2 =>
      rw [ho] at hops2
      exact (ops_nil_no_mid hops2).elim
    | dispatch_upd l₁ l₂ p hd hops2 =>
      rw [ho] at hops2
      exact (ops_nil_no_mid hops2).elim
    | dispatch_tick hd ht =>
      refine ⟨ho, htk, ?_⟩
      intro q hm
      rcases List.mem_append.mp hm with hm | hm
      · exact hfm q hm
      · simp at hm
    | dispatch_done hd hdone => exact ⟨ho, htk, hfm⟩
    | dispatch_finish f hd =>
      refine ⟨ho, htk, ?_⟩
      intro q hm
      rcases List.mem_append.mp hm with hm | hm
      · exact hfm q hm
      · simp at hm
    | tick_fire ht =>
      refine ⟨ho, htk, ?_⟩
      intro q hm
      rcases List.mem_append.mp hm with hm | hm
      · exact hfm q hm
      · simp only [List.mem_singleton] at hm
        injection hm with hq
        exact Or.inr (hq.trans htk)
    | tick_done ht hdone => exact ⟨ho, htk, hfm⟩
    | tick_send_done ht hdone => exact ⟨ho, htk, hfm⟩
    | op_refresh_done l₁ l₂ f hdone hops2 =>
      rw [ho] at hops2
      exact (ops_nil_no_mid hops2).elim
    | op_upd_write l₁ l₂ p hops2 =>
      rw [ho] at hops2
      exact (ops_nil_no_mid hops2).elim
    | op_upd_done l₁ l₂ p hdone hops2 =>
      rw [ho] at hops2
      exact (ops_nil_no_mid hops2).elim
    | op_upd_reset l₁ l₂ p hops2 hpos =>
      rw [ho] at hops2
      exact (ops_nil_no_mid hops2).elim
    | op_upd_reset_panic l₁ l₂ p hops2 hnp =>
      rw [ho] at hops2
      exact (ops_nil_no_mid hops2).elim
    | op_close l₁ l₂ hops2 =>
      rw [ho] at hops2
      exact (ops_nil_no_mid hops2).elim
    | spawn k he => exact Bool.noConfusion he

/-- C4 as claimed, following the spec's wording: for EVERY duration p2 —
no restriction to positive values — a completed UpdatePeriod(p2) call on
a running Poller leaves the ticker interval at p2 after exactly one
ticker reset. -/
def UpdAnyDurationClaim : Prop :=
  ∀ p1 p2 (s : Poller),
    Relation.ReflTransGen (Step false) (updScenario p1 p2) s →
    s.ops = [] → s.tick = p2 ∧ cR s.trace = 1

/-- Refutation of C4 as claimed: UpdatePeriod(-1) on a running Poller
created with period 1 reaches p.t.Reset(p.period) with a non-positive
stored period, and time.Ticker.Reset panics — the ticker keeps its old
interval and the process aborts. -/
theorem updatePeriod_any_duration_false : ¬ UpdAnyDurationClaim := by
  intro hc
  have h1 := Step.op_upd_write false (updScenario 1 (-1)) [] [] (-1) rfl
  have h2 := Step.dispatch_upd false
    (⟨-1, 1, false, .idle, .waiting, [.updSel (-1)], []⟩ : Poller) [] [] (-1) rfl rfl
  have h3 := Step.dispatch_finish false
    (⟨-1, 1, false, .busy false, .waiting, [.updReset (-1)],
      [.start false .update]⟩ : Poller) false rfl
  have h4 := Step.op_upd_reset_panic false
    (⟨-1, 1, false, .idle, .waiting, [.updReset (-1)],
      [.start false .update, .finish]⟩ : Poller) [] [] (-1) rfl (by decide)
  have happ := hc 1 (-1) _
    (Relation.ReflTransGen.tail (Relation.ReflTransGen.tail
      (Relation.ReflTransGen.tail (Relation.ReflTransGen.tail
        Relation.ReflTransGen.refl h1) h2) h3) h4) rfl
  have h5 : (1 : Int) = -1 := happ.1
  norm_num at h5

/-- C4 corrected: for positive p2, a completed UpdatePeriod(p2) call on a
running Poller replaces the stored period with p2, causes exactly one
unforced delivery attributed to it (and never a forced one), resets the
ticker exactly once, to p2, and only after its refresh was delivered
(every trace prefix has at least as many UpdatePeriod deliveries as
resets), and thereafter the ticker interval is p2: every later fire
carries p2.  For non-positive p2, however, the call reaches
p.t.Reset(p.period) with a non-positive stored period and
time.Ticker.Reset panics, aborting the process with no ticker reset
having occurred. -/
theorem poller_updatePeriod_spec (p1 p2 : Int) :
    (∀ s, Relation.ReflTransGen (Step false) (updScenario p1 p2) s →
      s.ops = [] → 0 < p2 →
      s.period = p2 ∧ s.tick = p2 ∧
      cU s.trace = 1 ∧ (∀ f, Ev.start f .update ∈ s.trace → f = false) ∧
      cR s.trace = 1 ∧ (∀ q, Ev.reset q ∈ s.trace → q = p2) ∧
      (∀ pre, IsPre pre s.trace → cR pre ≤ cU pre) ∧
      (∀ s2, Relation.ReflTransGen (Step false) s s2 →
        ∀ q, Ev.tickFire q ∈ s2.trace → Ev.tickFire q ∈ s.trace ∨ q = p2)) ∧
    (p2 ≤ 0 →
      ∃ s2, Relation.ReflTransGen (Step false) (updScenario p1 p2) s2 ∧
        s2.ops = [] ∧ Ev.panicked ∈ s2.trace ∧ cR s2.trace = 0) := by
  constructor
  · intro s h hops hpos
    obtain ⟨hdone, hph, huf, hrf, hpre⟩ := updInv_reach hpos h
    have hD : s.period = p2 ∧ s.tick = p2 ∧ cU s.trace = 1 ∧ cR s.trace = 1 := by
      rcases hph with ⟨ho, -⟩ | ⟨ho, -⟩ | ⟨ho, -⟩ | ⟨-, hper, htk, hcu, hcr⟩
      · rw [hops] at ho
        exact absurd ho (by simp)
      · rw [hops] at ho
        exact absurd ho (by simp)
      · rw [hops] at ho
        exact absurd ho (by simp)
      · exact ⟨hper, htk, hcu, hcr⟩
    refine ⟨hD.1, hD.2.1, hD.2.2.1, huf, hD.2.2.2, hrf, hpre, ?_⟩
    intro s2 h2 q hm
    have hq := (ops_empty_quiet h2 hops).2.2 q hm
    rcases hq with hq | hq
    · exact Or.inl hq
    · exact Or.inr (hq.trans hD.2.1)
  · intro hnp
    have h1 := Step.op_upd_write false (updScenario p1 p2) [] [] p2 rfl
    have h2 := Step.dispatch_upd false
      (⟨p2, p1, false, .idle, .waiting, [.updSel p2], []⟩ : Poller) [] [] p2 rfl rfl
    have h3 := Step.dispatch_finish false
      (⟨p2, p1, false, .busy false, .waiting, [.updReset p2],
        [.start false .update]⟩ : Poller) false rfl
    have h4 := Step.op_upd_reset_panic false
      (⟨p2, p1, false, .idle, .waiting, [.updReset p2],
        [.start false .update, .finish]⟩ : Poller) [] [] p2 rfl hnp
    refine ⟨⟨p2, p1, false, .idle, .waiting, [],
      [.start false .update, .finish, .panicked]⟩, ?_, rfl, by simp, rfl⟩
    exact Relation.ReflTransGen.tail (Relation.ReflTransGen.tail
      (Relation.ReflTransGen.tail (Relation.ReflTransGen.tail
        Relation.ReflTransGen.refl h1) h2) h3) h4

/-- Witness for C4 corrected, on two concrete runs.  UpdatePeriod(2) on a
Poller created with period 1: write the period, rendezvous with the
dispatch loop, finish the callback, reset the ticker.  And
UpdatePeriod(-1) on the same Poller: the run ends in the Reset panic with
no ticker reset. -/
theorem poller_updatePeriod_spec_witness :
    (cU [Ev.start false Src.update, Ev.finish, Ev.reset 2] = 1 ∧
     cR [Ev.start false Src.update, Ev.finish, Ev.reset 2] = 1 ∧
     (∀ q, Ev.reset q ∈ [Ev.start false Src.update, Ev.finish, Ev.reset 2] → q = 2)) ∧
    (∃ s2, Relation.ReflTransGen (Step false) (updScenario 1 (-1)) s2 ∧
      s2.ops = [] ∧ Ev.panicked ∈ s2.trace ∧ cR s2.trace = 0) := by
  have h1 := Step.op_upd_write false (updScenario 1 2) [] [] 2 rfl
  have h2 := Step.dispatch_upd false
    (⟨2, 1, false, .idle, .waiting, [.updSel 2], []⟩ : Poller) [] [] 2 rfl rfl
  have h3 := Step.dispatch_finish false
    (⟨2, 1, false, .busy false, .waiting, [.updReset 2],
      [.start false .update]⟩ : Poller) false rfl
  have h4 := Step.op_upd_reset false
    (⟨2, 1, false, .idle, .waiting, [.updReset 2],
      [.start false .update, .finish]⟩ : Poller) [] [] 2 rfl (by decide)
  have happ := (poller_updatePeriod_spec 1 2).1 _
    (Relation.ReflTransGen.tail (Relation.ReflTransGen.tail
      (Relation.ReflTransGen.tail (Relation.ReflTransGen.tail
        Relation.ReflTransGen.refl h1) h2) h3) h4) rfl (by decide)
  exact ⟨⟨happ.2.2.1, happ.2.2.2.2.1, happ.2.2.2.2.2.1⟩,
    (poller_updatePeriod_spec 1 (-1)).2 (by decide)⟩

/-- Witness for C3 amended at a concrete closed Poller with one pending
Refresh(true): the done branch completes it with the trace unchanged, and
from an exited dispatch loop the trace extension carries no start. -/
theorem poller_close_spec_witness :
    (∃ s2, Step false (⟨1, 1, true, .idle, .waiting, [.refreshing true], []⟩ : Poller) s2 ∧
      s2.ops = [] ++ [] ∧
      s2.trace = (⟨1, 1, true, .idle, .waiting, [.refreshing true], []⟩ : Poller).trace) ∧
    (∃ ext, (⟨1, 1, true, .exited, .waiting, [], []⟩ : Poller).trace =
      (⟨1, 1, true, .exited, .waiting, [], []⟩ : Poller).trace ++ ext ∧
      ∀ f src, Ev.start f src ∉ ext) :=
  ⟨(poller_close_spec ⟨1, 1, true, .idle, .waiting, [.refreshing true], []⟩).1
      [] [] true rfl rfl,
   (poller_close_spec ⟨1, 1, true, .exited, .waiting, [], []⟩).2.2.2.2
      ⟨1, 1, true, .exited, .waiting, [], []⟩ rfl Relation.ReflTransGen.refl⟩

end Dunnart
